import Mathlib

/-!
# Verification of the flareslop proximity-voice core

Shallow embedding of the repository's two state machines and their helpers:

* `src/client/voiceChat/peerManager.ts` — the client-side proximity arbiter
  (`VoicePeerManager`): candidate tracking, hysteresis, peer cap, evaluation
  passes.
* `src/src/worldShard.ts` — the per-cell shard actor (`WorldShard`): socket
  registration, signal relay, position stream, proximity recomputation with
  per-observer diffs, heartbeat cleanup.
* `src/src/config.ts` / `src/src/turn.ts` — ICE-server resolution for the
  admission handler.

JS `Map`/`Set` preserve insertion order; they are embedded as association
lists / duplicate-free lists with order-preserving update and delete.
JS timestamps (`Date.now()`) are embedded as integers, distances as rationals.
`Number.POSITIVE_INFINITY` (used by the arbiter for unknown distances) is
embedded by the two-point extension `EDist`.
-/

namespace Flareslop

/-! ## Association-list maps and insertion-ordered sets (JS Map / Set) -/

/-- JS `Map.get`: first entry with the key (maps built by `mapSet` have
unique keys). -/
def mapGet {v : Type} (m : List (String × v)) (k : String) : Option v :=
  match m with
  | [] => none
  | (k', x) :: rest => if k' = k then some x else mapGet rest k

/-- JS `Map.set`: update the value in place when the key is present,
otherwise append at the end (insertion order). -/
def mapSet {v : Type} (m : List (String × v)) (k : String) (x : v) :
    List (String × v) :=
  match m with
  | [] => [(k, x)]
  | (k', y) :: rest =>
      if k' = k then (k', x) :: rest else (k', y) :: mapSet rest k x

/-- JS `Map.delete`. -/
def mapDelete {v : Type} (m : List (String × v)) (k : String) :
    List (String × v) :=
  m.filter (fun e => e.1 ≠ k)

/-- JS `Set.add`: append if absent. -/
def setAdd (s : List String) (x : String) : List String :=
  if x ∈ s then s else s ++ [x]

/-- JS `Set.delete`. -/
def setDelete (s : List String) (x : String) : List String :=
  s.filter (fun y => y ≠ x)

theorem mapGet_mapSet_self {v : Type} (m : List (String × v)) (k : String)
    (x : v) : mapGet (mapSet m k x) k = some x := by
  induction m with
  | nil => simp [mapGet, mapSet]
  | cons e rest ih =>
      by_cases h : e.1 = k
      · simp [mapGet, mapSet, h]
      · simp [mapGet, mapSet, h, ih]

theorem mapGet_mapDelete_self {v : Type} (m : List (String × v))
    (k : String) : mapGet (mapDelete m k) k = none := by
  induction m with
  | nil => simp [mapGet, mapDelete]
  | cons e rest ih =>
      by_cases h : e.1 = k
      · simpa [mapDelete, h] using ih
      · simpa [mapDelete, mapGet, h] using ih

theorem length_setAdd_le (s : List String) (x : String) :
    (setAdd s x).length ≤ s.length + 1 := by
  by_cases h : x ∈ s <;> simp [setAdd, h]

theorem nodup_setAdd {s : List String} (h : s.Nodup) (x : String) :
    (setAdd s x).Nodup := by
  by_cases hx : x ∈ s
  · simpa [setAdd, hx] using h
  · simp only [setAdd, hx, if_false]
    exact List.Nodup.append h (List.nodup_singleton x)
      (by simpa using fun hy => hx hy)

theorem mem_setAdd_self (s : List String) (x : String) : x ∈ setAdd s x := by
  by_cases h : x ∈ s <;> simp [setAdd, h]

theorem mem_setAdd_of_mem {s : List String} {y : String} (x : String)
    (h : y ∈ s) : y ∈ setAdd s x := by
  by_cases hx : x ∈ s <;> simp [setAdd, hx, h]

/-! ## Stable insertion sort (JS `Array.prototype.sort` with a comparator) -/

/-- Insert `a` before the first element `b` with `le a b`; elements that
compare equal keep their original relative order (JS sort is stable). -/
def insertBy {α : Type} (le : α → α → Bool) (a : α) : List α → List α
  | [] => [a]
  | b :: rest => if le a b then a :: b :: rest else b :: insertBy le a rest

/-- Stable sort by a boolean comparator. -/
def sortBy {α : Type} (le : α → α → Bool) : List α → List α
  | [] => []
  | a :: rest => insertBy le a (sortBy le rest)

theorem mem_insertBy {α : Type} (le : α → α → Bool) (a x : α)
    (l : List α) : x ∈ insertBy le a l ↔ x = a ∨ x ∈ l := by
  induction l with
  | nil => simp [insertBy]
  | cons b rest ih =>
      by_cases h : le a b
      · simp [insertBy, h]
      · rw [insertBy, if_neg h]
        simp only [List.mem_cons, ih]
        tauto

theorem mem_sortBy {α : Type} (le : α → α → Bool) (x : α) (l : List α) :
    x ∈ sortBy le l ↔ x ∈ l := by
  induction l with
  | nil => simp [sortBy]
  | cons a rest ih => simp [sortBy, mem_insertBy, ih]

theorem sortBy_perm {α : Type} (le : α → α → Bool) (l : List α) :
    (sortBy le l).Perm l := by
  induction l with
  | nil => simp [sortBy]
  | cons a rest ih =>
      have h : ∀ (m : List α), (insertBy le a m).Perm (a :: m) := by
        intro m
        induction m with
        | nil => simp [insertBy]
        | cons b r ihm =>
            by_cases hb : le a b
            · simp [insertBy, hb]
            · rw [insertBy, if_neg hb]
              exact (List.Perm.cons b ihm).trans (List.Perm.swap a b r)
      exact ((h (sortBy le rest)).trans (List.Perm.cons a ih))

theorem pairwise_insertBy {α : Type} (le : α → α → Bool)
    (htrans : ∀ a b c, le a b = true → le b c = true → le a c = true)
    (htot : ∀ a b, le a b = true ∨ le b a = true) (a : α) (l : List α)
    (hl : l.Pairwise (fun x y => le x y = true)) :
    (insertBy le a l).Pairwise (fun x y => le x y = true) := by
  induction l with
  | nil => simp [insertBy]
  | cons b rest ih =>
      rw [List.pairwise_cons] at hl
      by_cases h : le a b = true
      · rw [insertBy, if_pos h, List.pairwise_cons]
        refine ⟨?_, List.pairwise_cons.mpr hl⟩
        intro y hy
        rcases List.mem_cons.mp hy with hy | hy
        · exact hy ▸ h
        · exact htrans a b y h (hl.1 y hy)
      · rw [insertBy, if_neg h, List.pairwise_cons]
        refine ⟨?_, ih hl.2⟩
        intro y hy
        rcases (mem_insertBy le a y rest).mp hy with hy | hy
        · rw [hy]
          rcases htot a b with hab | hba
          · exact absurd hab h
          · exact hba
        · exact hl.1 y hy

theorem pairwise_sortBy {α : Type} (le : α → α → Bool)
    (htrans : ∀ a b c, le a b = true → le b c = true → le a c = true)
    (htot : ∀ a b, le a b = true ∨ le b a = true) (l : List α) :
    (sortBy le l).Pairwise (fun x y => le x y = true) := by
  induction l with
  | nil => simp [sortBy]
  | cons a rest ih => exact pairwise_insertBy le htrans htot a _ ih

/-! ## Geometry

`Vector3` from `src/client/voiceChat/types.ts` / `src/src/types.ts`, over ℚ.
The source's `distanceBetween` takes a real square root (`Math.sqrt`), which
has no exact image inside ℚ; everywhere the arbiter consumes it we keep the
distance function as an explicit parameter `distFn` standing for the
Euclidean distance of `peerManager.ts` lines 32-38. Every property claimed
of the arbiter is independent of the metric and is proved for all `distFn`.
-/

structure Vector3 where
  x : ℚ
  y : ℚ
  z : ℚ
deriving DecidableEq

/-! ## The proximity arbiter (`src/client/voiceChat/peerManager.ts`) -/

/-- A JS number that may be `Number.POSITIVE_INFINITY` (the arbiter stores
`Infinity` for unknown distances; no `NaN` arises on these code paths). -/
inductive EDist where
  | fin (q : ℚ)
  | inf
deriving DecidableEq

/-- `d <= c` for a threshold `c` (`Infinity <= c` is false). -/
def EDist.leq : EDist → ℚ → Bool
  | .fin q, c => q ≤ c
  | .inf, _ => false

/-- Comparator order used for sorting candidate states
(`(a, b) => a.distance - b.distance`); candidates are all finite but the
order is total on `EDist` anyway. -/
def EDist.le : EDist → EDist → Bool
  | .fin a, .fin b => a ≤ b
  | .fin _, .inf => true
  | .inf, .inf => true
  | .inf, .fin _ => false

theorem edLe_trans (a b c : EDist) (hab : a.le b = true)
    (hbc : b.le c = true) : a.le c = true := by
  cases a <;> cases b <;> cases c <;> simp_all [EDist.le]
  exact hab.trans hbc

theorem edLe_total (a b : EDist) : a.le b = true ∨ b.le a = true := by
  cases a with
  | fin qa =>
      cases b with
      | fin qb => simpa [EDist.le] using le_total qa qb
      | inf => simp [EDist.le]
  | inf => cases b <;> simp [EDist.le]

/-- `PeerState` (`peerManager.ts` lines 14-19). -/
structure PeerState where
  id : String
  distance : EDist
  lastUpdated : ℤ
  hasExplicitDistance : Bool
deriving DecidableEq

/-- The fields of `VoicePeerManager`: options (spread of `DEFAULT_OPTIONS`)
plus the mutable collections. `maxPeers` is the peer-count cap (a ℕ: the
source computes `Math.max(maxPeers - n, 0)`, which is ℕ-truncated
subtraction). The debounce timer is represented by the flag
`evaluateArmed` (`evaluateTimer != null`); its duration only affects
real-time scheduling. `disposed` stays false on every path considered. -/
structure ManagerState where
  connectRadius : ℚ
  disconnectRadiusMultiplier : ℚ
  maxPeers : ℕ
  candidateIds : List String
  peerStates : List (String × PeerState)
  connectedPeers : List String
  localPosition : Option Vector3
  peerPositions : List (String × Vector3)
  evaluateArmed : Bool
deriving DecidableEq

/-- `connect` / `disconnect` listener notifications. -/
inductive PeerEvent where
  | connect (peerId : String)
  | disconnect (peerId : String)
deriving DecidableEq

/-- `new VoicePeerManager(options)` with every collection empty;
defaults `connectRadius := 30`, `disconnectRadiusMultiplier := 3/2`,
`maxPeers := 8`. -/
def mkManager (connectRadius disconnectRadiusMultiplier : ℚ)
    (maxPeers : ℕ) : ManagerState :=
  { connectRadius := connectRadius
    disconnectRadiusMultiplier := disconnectRadiusMultiplier
    maxPeers := maxPeers
    candidateIds := []
    peerStates := []
    connectedPeers := []
    localPosition := none
    peerPositions := []
    evaluateArmed := false }

/-- `setDistance` (lines 216-234): update or create the peer state; both
branches store `id := peerId`, the new distance, `lastUpdated := Date.now()`
and the explicitness flag. -/
def setDistance (now : ℤ) (peerId : String) (distance : EDist)
    (explicit : Bool) (st : ManagerState) : ManagerState :=
  let s : PeerState :=
    { id := peerId, distance := distance, lastUpdated := now,
      hasExplicitDistance := explicit }
  { st with peerStates := mapSet st.peerStates peerId s }

/-- `updateLocalPosition` (lines 101-112). -/
def updateLocalPosition (distFn : Vector3 → Vector3 → ℚ) (now : ℤ)
    (position : Vector3) (st : ManagerState) : ManagerState :=
  let st1 := { st with localPosition := some position }
  let st2 := st.peerPositions.foldl
    (fun acc pr => setDistance now pr.1 (.fin (distFn position pr.2)) false acc)
    st1
  { st2 with evaluateArmed := true }

/-- `updatePeerPosition` (lines 114-140). -/
def updatePeerPosition (distFn : Vector3 → Vector3 → ℚ) (now : ℤ)
    (peerId : String) (position : Option Vector3) (st : ManagerState) :
    ManagerState :=
  match position with
  | none =>
      let st1 := { st with peerPositions := mapDelete st.peerPositions peerId }
      let st2 :=
        match mapGet st1.peerStates peerId with
        | some s =>
            let cleared : PeerState := { s with hasExplicitDistance := false }
            let st' := { st1 with
              peerStates := mapSet st1.peerStates peerId cleared }
            setDistance now peerId .inf false st'
        | none => st1
      { st2 with evaluateArmed := true }
  | some pos =>
      let st1 := { st with peerPositions := mapSet st.peerPositions peerId pos }
      let st2 :=
        match st1.localPosition with
        | some lp => setDistance now peerId (.fin (distFn lp pos)) false st1
        | none => setDistance now peerId .inf false st1
      { st2 with evaluateArmed := true }

/-- `updatePeerDistance` (lines 142-146); `null` normalizes to `Infinity`. -/
def updatePeerDistance (now : ℤ) (peerId : String) (distance : Option ℚ)
    (st : ManagerState) : ManagerState :=
  let normalized : EDist := match distance with
    | none => .inf
    | some d => .fin d
  { setDistance now peerId normalized true st with evaluateArmed := true }

/-- `PeerDiffMessage` fields consumed by `applyPeerDiff`; an absent field is
`none` (note a *present but empty* `peers` array is `some []`: JS arrays are
truthy, so it still takes the replace branch, as in the source). -/
structure PeerDiffMessage where
  peers : Option (List String)
  added : Option (List String)
  removed : Option (List String)
  distances : Option (List (String × ℚ))
  positions : Option (List (String × Vector3))

/-- The candidate-set block of `applyPeerDiff` (lines 160-183): an absolute
`peers` list replaces the candidate set (delete the candidates not listed,
then add every listed one); otherwise `added` / `removed` deltas apply. -/
def applyPeerDiffCandidates (diff : PeerDiffMessage) (st : ManagerState) :
    ManagerState :=
  match diff.peers with
  | some newList =>
      let kept := { st with candidateIds :=
        st.candidateIds.filter (fun p => newList.contains p) }
      newList.foldl
        (fun acc p => { acc with candidateIds := setAdd acc.candidateIds p })
        kept
  | none =>
      let withAdded :=
        match diff.added with
        | some add => add.foldl
            (fun acc p =>
              { acc with candidateIds := setAdd acc.candidateIds p }) st
        | none => st
      match diff.removed with
      | some rem =>
          let pruned := rem.foldl (fun s p => setDelete s p)
            withAdded.candidateIds
          { withAdded with candidateIds := pruned }
      | none => withAdded

/-- The `distances` block of `applyPeerDiff` (lines 185-189). -/
def applyPeerDiffDistances (now : ℤ) (diff : PeerDiffMessage)
    (st : ManagerState) : ManagerState :=
  match diff.distances with
  | some ds => ds.foldl
      (fun acc pr => updatePeerDistance now pr.1 (some pr.2) acc) st
  | none => st

/-- The `positions` block of `applyPeerDiff` (lines 191-195). -/
def applyPeerDiffPositions (distFn : Vector3 → Vector3 → ℚ) (now : ℤ)
    (diff : PeerDiffMessage) (st : ManagerState) : ManagerState :=
  match diff.positions with
  | some ps => ps.foldl
      (fun acc pr => updatePeerPosition distFn now pr.1 (some pr.2) acc) st
  | none => st

/-- The trailing `removed` position-clearing block of `applyPeerDiff`
(lines 197-201). -/
def applyPeerDiffRemoved (distFn : Vector3 → Vector3 → ℚ) (now : ℤ)
    (diff : PeerDiffMessage) (st : ManagerState) : ManagerState :=
  match diff.removed with
  | some rem => rem.foldl
      (fun acc p => updatePeerPosition distFn now p none acc) st
  | none => st

/-- `applyPeerDiff` (lines 148-204): the four blocks in source order,
followed by `scheduleEvaluate`. -/
def applyPeerDiff (distFn : Vector3 → Vector3 → ℚ) (now : ℤ)
    (diff : PeerDiffMessage) (st : ManagerState) : ManagerState :=
  let st4 := applyPeerDiffRemoved distFn now diff
    (applyPeerDiffPositions distFn now diff
      (applyPeerDiffDistances now diff
        (applyPeerDiffCandidates diff st)))
  { st4 with evaluateArmed := true }

/-- `removePeer` (lines 206-214): forget the peer everywhere; emit
`disconnect` iff it was connected. Note: it does *not* schedule an
evaluation pass (`evaluateArmed` untouched). -/
def removePeer (peerId : String) (st : ManagerState) :
    ManagerState × List PeerEvent :=
  let st1 := { st with
    candidateIds := setDelete st.candidateIds peerId
    peerPositions := mapDelete st.peerPositions peerId
    peerStates := mapDelete st.peerStates peerId }
  if st1.connectedPeers.contains peerId then
    ({ st1 with connectedPeers := setDelete st1.connectedPeers peerId },
      [.disconnect peerId])
  else (st1, [])

/-- `state?.distance ?? Number.POSITIVE_INFINITY` (line 271). -/
def stateDistance (st : ManagerState) (peerId : String) : EDist :=
  match mapGet st.peerStates peerId with
  | some s => s.distance
  | none => .inf

/-- The keep-vs-disconnect test of the first loop of `evaluate`
(lines 264-278): a connected peer is kept iff it is still a candidate and
its distance is at most the disconnect threshold. -/
def keepCond (st : ManagerState) (disconnectThreshold : ℚ)
    (peerId : String) : Bool :=
  st.candidateIds.contains peerId &&
    (stateDistance st peerId).leq disconnectThreshold

/-- The stale-state pruning test at the end of `evaluate` (lines 338-343). -/
def pruneKey (st : ManagerState) (now : ℤ) (peerId : String) : Bool :=
  match mapGet st.peerStates peerId with
  | some s => (decide (60000 < now - s.lastUpdated)) &&
      !(st.candidateIds.contains peerId)
  | none => false

/-- One step of the disconnect loop of `evaluate` (lines 280-284):
`if (this.connectedPeers.delete(peerId)) this.emitDisconnect(peerId)`. -/
def discStep (acc : List String × List PeerEvent) (peerId : String) :
    List String × List PeerEvent :=
  if acc.1.contains peerId then
    (setDelete acc.1 peerId, acc.2 ++ [PeerEvent.disconnect peerId])
  else acc

/-- The admission loop's `this.connectedPeers.add(candidates[i].id)`
(line 332), folded over the admitted slice. -/
def admitFold (s : List String) (l : List PeerState) : List String :=
  l.foldl (fun acc c => setAdd acc c.id) s

/-- `evaluate` (lines 251-344). Returns the updated state and the emitted
listener events, in emission order. -/
def evaluate (now : ℤ) (st : ManagerState) : ManagerState × List PeerEvent :=
  let connectThreshold := st.connectRadius
  let disconnectThreshold := connectThreshold * st.disconnectRadiusMultiplier
  let keepConnected := st.connectedPeers.filter (keepCond st disconnectThreshold)
  let toDisconnect :=
    st.connectedPeers.filter (fun p => !(keepCond st disconnectThreshold p))
  let afterDisc := toDisconnect.foldl discStep (st.connectedPeers, [])
  let connected1 := afterDisc.1
  let discEvents := afterDisc.2
  let st1 := { st with connectedPeers := connected1 }
  let remainingSlots := st.maxPeers - keepConnected.length
  if remainingSlots = 0 then (st1, discEvents)
  else
    let candidates := st.candidateIds.filterMap (fun peerId =>
      if keepConnected.contains peerId || connected1.contains peerId then none
      else
        match mapGet st.peerStates peerId with
        | none => none
        | some s =>
            if !(s.distance.leq connectThreshold) then none else some s)
    let sorted := sortBy (fun a b => a.distance.le b.distance) candidates
    let admittedPeers := sorted.take remainingSlots
    let connected2 := admitFold connected1 admittedPeers
    let connEvents := admittedPeers.map (fun c => PeerEvent.connect c.id)
    ({ st1 with
        connectedPeers := connected2
        peerStates := st.peerStates.filter (fun pr => !(pruneKey st now pr.1))
        peerPositions :=
          st.peerPositions.filter (fun pr => !(pruneKey st now pr.1)) },
      discEvents ++ connEvents)

/-- The public arbiter operations (method calls and the debounced
evaluation-timer fire). -/
inductive MOp where
  | updateLocalPosition (now : ℤ) (v : Vector3)
  | updatePeerPosition (now : ℤ) (id : String) (v : Option Vector3)
  | updatePeerDistance (now : ℤ) (id : String) (d : Option ℚ)
  | applyPeerDiff (now : ℤ) (diff : PeerDiffMessage)
  | removePeer (id : String)
  | evaluatePass (now : ℤ)

/-- One arbiter operation; the evaluation-timer fire clears the armed flag
and runs `evaluate`. -/
def mstep (distFn : Vector3 → Vector3 → ℚ) (st : ManagerState) :
    MOp → ManagerState × List PeerEvent
  | .updateLocalPosition now v => (updateLocalPosition distFn now v st, [])
  | .updatePeerPosition now id v => (updatePeerPosition distFn now id v st, [])
  | .updatePeerDistance now id d => (updatePeerDistance now id d st, [])
  | .applyPeerDiff now diff => (applyPeerDiff distFn now diff st, [])
  | .removePeer id => removePeer id st
  | .evaluatePass now => evaluate now { st with evaluateArmed := false }

/-- Run a sequence of arbiter operations, accumulating events. -/
def runOps (distFn : Vector3 → Vector3 → ℚ) (ops : List MOp)
    (st : ManagerState) : ManagerState × List PeerEvent :=
  ops.foldl (fun acc op =>
    let r := mstep distFn acc.1 op
    (r.1, acc.2 ++ r.2)) (st, [])

/-! ### Characterizing one `evaluate` pass -/

/-- The disconnect threshold `connectRadius × disconnectRadiusMultiplier`. -/
def disThr (st : ManagerState) : ℚ :=
  st.connectRadius * st.disconnectRadiusMultiplier

/-- The connected peers an `evaluate` pass keeps. -/
def keepOf (st : ManagerState) : List String :=
  st.connectedPeers.filter (keepCond st (disThr st))

/-- The connected peers an `evaluate` pass marks for disconnect. -/
def discOf (st : ManagerState) : List String :=
  st.connectedPeers.filter (fun p => !(keepCond st (disThr st) p))

/-- The admission candidates of an `evaluate` pass: candidates that are not
still connected, have a peer state, and sit within `connectRadius`. -/
def candOf (st : ManagerState) : List PeerState :=
  st.candidateIds.filterMap (fun peerId =>
    if (keepOf st).contains peerId then none
    else
      match mapGet st.peerStates peerId with
      | none => none
      | some s =>
          if !(s.distance.leq st.connectRadius) then none else some s)

/-- The peers an `evaluate` pass admits: closest first, up to the free
slots. -/
def admOf (st : ManagerState) : List PeerState :=
  (sortBy (fun a b : PeerState => a.distance.le b.distance) (candOf st)).take
    (st.maxPeers - (keepOf st).length)

theorem foldl_discStep_spec (d : List String) :
    ∀ (acc : List String) (evs : List PeerEvent), acc.Nodup → d.Nodup →
    (∀ x ∈ d, x ∈ acc) →
    (d.foldl discStep (acc, evs)).1 =
        acc.filter (fun x => !(d.contains x)) ∧
    (d.foldl discStep (acc, evs)).2 = evs ++ d.map PeerEvent.disconnect := by
  induction d with
  | nil =>
      intro acc evs _ _ _
      simp [List.foldl]
  | cons x d' ih =>
      intro acc evs hacc hd hsub
      have hx : x ∈ acc := hsub x (List.mem_cons_self x d')
      have hxc : acc.contains x = true := by
        simpa [List.contains] using hx
      have hnotx : x ∉ d' := (List.nodup_cons.mp hd).1
      rw [List.foldl_cons, discStep, if_pos hxc]
      have hstep := ih (setDelete acc x) (evs ++ [PeerEvent.disconnect x])
        (by exact List.Nodup.filter _ hacc)
        ((List.nodup_cons.mp hd).2)
        (by
          intro y hy
          have hya : y ∈ acc := hsub y (List.mem_cons_of_mem x hy)
          have hyx : y ≠ x := by
            intro h
            exact hnotx (h ▸ hy)
          simp [setDelete, hya, hyx])
      refine ⟨?_, ?_⟩
      · rw [hstep.1]
        rw [setDelete, List.filter_filter]
        apply List.filter_congr
        intro z hz
        by_cases hzx : z = x
        · subst hzx
          simp
        · simp [hzx]
      · rw [hstep.2]
        simp

theorem connected1_eq (st : ManagerState) :
    st.connectedPeers.filter
        (fun x => !((discOf st).contains x)) = keepOf st := by
  rw [keepOf]
  apply List.filter_congr
  intro x hx
  by_cases hp : keepCond st (disThr st) x = true
  · have hnm : x ∉ discOf st := by
      simp [discOf, List.mem_filter, hp]
    simp [hp, hnm]
  · have hp' : keepCond st (disThr st) x = false := Bool.eq_false_iff.mpr hp
    have hm : x ∈ discOf st := by
      simp [discOf, List.mem_filter, hx, hp']
    simp [hm, hp']

/-- One `evaluate` pass, characterized: disconnect the complement of
`keepOf`, then (when slots remain) admit `admOf` in sorted order and prune
stale states. Needs only that `connectedPeers` is duplicate-free (it is a JS
`Set`). -/
theorem evaluate_eq (now : ℤ) (st : ManagerState)
    (hnd : st.connectedPeers.Nodup) :
    evaluate now st =
      if st.maxPeers - (keepOf st).length = 0 then
        ({ st with connectedPeers := keepOf st },
          (discOf st).map PeerEvent.disconnect)
      else
        ({ st with
            connectedPeers := admitFold (keepOf st) (admOf st)
            peerStates :=
              st.peerStates.filter (fun pr => !(pruneKey st now pr.1))
            peerPositions :=
              st.peerPositions.filter (fun pr => !(pruneKey st now pr.1)) },
          (discOf st).map PeerEvent.disconnect ++
            (admOf st).map (fun c => PeerEvent.connect c.id)) := by
  have hdisc := foldl_discStep_spec (discOf st) st.connectedPeers []
    hnd (List.Nodup.filter _ hnd) (fun x hx => List.mem_of_mem_filter hx)
  have hc1 := connected1_eq st
  simp only [evaluate, disThr, keepOf, discOf, candOf, admOf] at *
  rw [hdisc.1, hdisc.2, hc1]
  simp only [Bool.or_self, List.nil_append]

theorem admitFold_length_le (l : List PeerState) :
    ∀ s : List String, (admitFold s l).length ≤ s.length + l.length := by
  induction l with
  | nil => intro s; simp [admitFold]
  | cons c l' ih =>
      intro s
      have h1 := ih (setAdd s c.id)
      have h2 := length_setAdd_le s c.id
      simp only [admitFold, List.foldl_cons, List.length_cons] at *
      omega

theorem admitFold_nodup (l : List PeerState) :
    ∀ s : List String, s.Nodup → (admitFold s l).Nodup := by
  induction l with
  | nil => intro s h; simpa [admitFold] using h
  | cons c l' ih =>
      intro s h
      simpa only [admitFold, List.foldl_cons] using
        ih (setAdd s c.id) (nodup_setAdd h c.id)

theorem keepOf_length_le (st : ManagerState) :
    (keepOf st).length ≤ st.connectedPeers.length :=
  List.length_filter_le _ _

theorem admOf_length_le (st : ManagerState) :
    (admOf st).length ≤ st.maxPeers - (keepOf st).length := by
  simp [admOf]

/-- Cap preservation of one `evaluate` pass, together with preservation of
duplicate-freeness and of the option fields. -/
theorem evaluate_cap (now : ℤ) (st : ManagerState)
    (hnd : st.connectedPeers.Nodup)
    (hcap : st.connectedPeers.length ≤ st.maxPeers) :
    (evaluate now st).1.connectedPeers.length ≤ st.maxPeers ∧
    (evaluate now st).1.connectedPeers.Nodup ∧
    (evaluate now st).1.maxPeers = st.maxPeers := by
  rw [evaluate_eq now st hnd]
  have hk : (keepOf st).length ≤ st.maxPeers :=
    le_trans (keepOf_length_le st) hcap
  have hknd : (keepOf st).Nodup := List.Nodup.filter _ hnd
  by_cases h0 : st.maxPeers - (keepOf st).length = 0
  · rw [if_pos h0]
    exact ⟨hk, hknd, rfl⟩
  · rw [if_neg h0]
    refine ⟨?_, admitFold_nodup _ _ hknd, rfl⟩
    show (admitFold (keepOf st) (admOf st)).length ≤ st.maxPeers
    have h1 := admitFold_length_le (admOf st) (keepOf st)
    have h2 := admOf_length_le st
    omega

/-- Generic fold preservation. -/
theorem foldl_preserve {α σ : Type} (f : σ → α → σ) (P : σ → Prop)
    (h : ∀ s a, P s → P (f s a)) :
    ∀ (l : List α) (s : σ), P s → P (l.foldl f s) := by
  intro l
  induction l with
  | nil => intro s hs; exact hs
  | cons a l' ih => intro s hs; exact ih (f s a) (h s a hs)

/-- The connection-set frame: a state transformer leaves `connectedPeers`
and `maxPeers` unchanged. -/
def ConnFrame (g : ManagerState → ManagerState) : Prop :=
  ∀ st, (g st).connectedPeers = st.connectedPeers ∧
    (g st).maxPeers = st.maxPeers

theorem connFrame_comp {g h : ManagerState → ManagerState}
    (hg : ConnFrame g) (hh : ConnFrame h) : ConnFrame (fun st => h (g st)) := by
  intro st
  exact ⟨((hh (g st)).1).trans (hg st).1, ((hh (g st)).2).trans (hg st).2⟩

theorem connFrame_foldl {α : Type} (f : ManagerState → α → ManagerState)
    (hf : ∀ a, ConnFrame (fun st => f st a)) (l : List α) :
    ConnFrame (fun st => l.foldl f st) := by
  induction l with
  | nil => intro st; exact ⟨rfl, rfl⟩
  | cons a l' ih =>
      intro st
      have h1 := hf a st
      have h2 := ih (f st a)
      simp only [List.foldl_cons]
      exact ⟨h2.1.trans h1.1, h2.2.trans h1.2⟩

theorem connFrame_setDistance (now : ℤ) (peerId : String) (d : EDist)
    (e : Bool) : ConnFrame (setDistance now peerId d e) := by
  intro st
  exact ⟨rfl, rfl⟩

theorem connFrame_updatePeerDistance (now : ℤ) (peerId : String)
    (d : Option ℚ) : ConnFrame (updatePeerDistance now peerId d) := by
  intro st
  exact ⟨rfl, rfl⟩

theorem connFrame_updateLocalPosition (distFn : Vector3 → Vector3 → ℚ)
    (now : ℤ) (v : Vector3) : ConnFrame (updateLocalPosition distFn now v) := by
  intro st
  unfold updateLocalPosition
  have h := connFrame_foldl
    (fun acc pr => setDistance now pr.1 (.fin (distFn v pr.2)) false acc)
    (fun pr => connFrame_setDistance now pr.1 (.fin (distFn v pr.2)) false)
    st.peerPositions { st with localPosition := some v }
  exact ⟨h.1, h.2⟩

theorem connFrame_updatePeerPosition (distFn : Vector3 → Vector3 → ℚ)
    (now : ℤ) (peerId : String) (v : Option Vector3) :
    ConnFrame (updatePeerPosition distFn now peerId v) := by
  intro st
  cases v with
  | none =>
      simp only [updatePeerPosition]
      constructor <;> (split <;> rfl)
  | some pos =>
      simp only [updatePeerPosition]
      constructor <;> (split <;> rfl)

theorem connFrame_applyPeerDiffCandidates (diff : PeerDiffMessage) :
    ConnFrame (applyPeerDiffCandidates diff) := by
  intro st
  unfold applyPeerDiffCandidates
  cases diff.peers with
  | some newList =>
      exact connFrame_foldl _ (fun p => by intro st'; exact ⟨rfl, rfl⟩)
        newList _
  | none =>
      cases diff.removed with
      | some rem =>
          cases diff.added with
          | some add =>
              have h := connFrame_foldl
                (fun acc p =>
                  { acc with candidateIds := setAdd acc.candidateIds p })
                (fun p => by intro st'; exact ⟨rfl, rfl⟩) add st
              exact ⟨h.1, h.2⟩
          | none => exact ⟨rfl, rfl⟩
      | none =>
          cases diff.added with
          | some add =>
              exact connFrame_foldl _
                (fun p => by intro st'; exact ⟨rfl, rfl⟩) add st
          | none => exact ⟨rfl, rfl⟩

theorem connFrame_applyPeerDiffDistances (now : ℤ) (diff : PeerDiffMessage) :
    ConnFrame (applyPeerDiffDistances now diff) := by
  intro st
  unfold applyPeerDiffDistances
  cases diff.distances with
  | some ds =>
      exact connFrame_foldl _
        (fun pr => connFrame_updatePeerDistance now pr.1 (some pr.2)) ds st
  | none => exact ⟨rfl, rfl⟩

theorem connFrame_applyPeerDiffPositions (distFn : Vector3 → Vector3 → ℚ)
    (now : ℤ) (diff : PeerDiffMessage) :
    ConnFrame (applyPeerDiffPositions distFn now diff) := by
  intro st
  unfold applyPeerDiffPositions
  cases diff.positions with
  | some ps =>
      exact connFrame_foldl _
        (fun pr => connFrame_updatePeerPosition distFn now pr.1 (some pr.2))
        ps st
  | none => exact ⟨rfl, rfl⟩

theorem connFrame_applyPeerDiffRemoved (distFn : Vector3 → Vector3 → ℚ)
    (now : ℤ) (diff : PeerDiffMessage) :
    ConnFrame (applyPeerDiffRemoved distFn now diff) := by
  intro st
  unfold applyPeerDiffRemoved
  cases diff.removed with
  | some rem =>
      exact connFrame_foldl _
        (fun p => connFrame_updatePeerPosition distFn now p none) rem st
  | none => exact ⟨rfl, rfl⟩

theorem connFrame_applyPeerDiff (distFn : Vector3 → Vector3 → ℚ) (now : ℤ)
    (diff : PeerDiffMessage) : ConnFrame (applyPeerDiff distFn now diff) := by
  intro st
  unfold applyPeerDiff
  have h1 := connFrame_applyPeerDiffCandidates diff st
  have h2 := connFrame_applyPeerDiffDistances now diff
    (applyPeerDiffCandidates diff st)
  have h3 := connFrame_applyPeerDiffPositions distFn now diff
    (applyPeerDiffDistances now diff (applyPeerDiffCandidates diff st))
  have h4 := connFrame_applyPeerDiffRemoved distFn now diff
    (applyPeerDiffPositions distFn now diff
      (applyPeerDiffDistances now diff (applyPeerDiffCandidates diff st)))
  refine ⟨?_, ?_⟩
  · exact (h4.1.trans h3.1).trans (h2.1.trans h1.1)
  · exact (h4.2.trans h3.2).trans (h2.2.trans h1.2)

/-- The invariant carried through every arbiter operation: the configured
cap is immutable, the connected set is duplicate-free, and it never exceeds
the cap. -/
def CapInv (m : ℕ) (st : ManagerState) : Prop :=
  st.maxPeers = m ∧ st.connectedPeers.Nodup ∧ st.connectedPeers.length ≤ m

theorem capInv_of_connFrame {g : ManagerState → ManagerState}
    (hg : ConnFrame g) (m : ℕ) (st : ManagerState) (h : CapInv m st) :
    CapInv m (g st) := by
  obtain ⟨hm, hnd, hlen⟩ := h
  obtain ⟨h1, h2⟩ := hg st
  exact ⟨h2.trans hm, h1 ▸ hnd, h1 ▸ hlen⟩

theorem mstep_capInv (distFn : Vector3 → Vector3 → ℚ) (op : MOp) (m : ℕ)
    (st : ManagerState) (h : CapInv m st) :
    CapInv m (mstep distFn st op).1 := by
  cases op with
  | updateLocalPosition now v =>
      exact capInv_of_connFrame (connFrame_updateLocalPosition distFn now v)
        m st h
  | updatePeerPosition now id v =>
      exact capInv_of_connFrame
        (connFrame_updatePeerPosition distFn now id v) m st h
  | updatePeerDistance now id d =>
      exact capInv_of_connFrame (connFrame_updatePeerDistance now id d) m st h
  | applyPeerDiff now diff =>
      exact capInv_of_connFrame (connFrame_applyPeerDiff distFn now diff)
        m st h
  | removePeer id =>
      obtain ⟨hm, hnd, hlen⟩ := h
      simp only [mstep, removePeer]
      by_cases hc : st.connectedPeers.contains id
      · rw [if_pos hc]
        refine ⟨hm, List.Nodup.filter _ hnd, ?_⟩
        exact le_trans (List.length_filter_le _ _) hlen
      · rw [if_neg hc]
        exact ⟨hm, hnd, hlen⟩
  | evaluatePass now =>
      obtain ⟨hm, hnd, hlen⟩ := h
      have hcap := evaluate_cap now { st with evaluateArmed := false }
        hnd (hm ▸ hlen)
      exact ⟨hcap.2.2.trans hm, hcap.2.1, hm ▸ hcap.1⟩

theorem runOps_capInv (distFn : Vector3 → Vector3 → ℚ) (m : ℕ)
    (ops : List MOp) :
    ∀ (st : ManagerState) (evs : List PeerEvent), CapInv m st →
    CapInv m (ops.foldl (fun acc op =>
      let r := mstep distFn acc.1 op
      (r.1, acc.2 ++ r.2)) (st, evs)).1 := by
  induction ops with
  | nil => intro st evs h; exact h
  | cons op ops' ih =>
      intro st evs h
      rw [List.foldl_cons]
      exact ih _ _ (mstep_capInv distFn op m st h)

/-- Recognize a `connect` event. -/
def isConnectEv : PeerEvent → Bool
  | .connect _ => true
  | .disconnect _ => false

theorem filter_isConnect_disc (l : List String) :
    (l.map PeerEvent.disconnect).filter isConnectEv = [] := by
  induction l <;> simp_all [isConnectEv]

theorem filter_isConnect_conn (l : List PeerState) :
    (l.map (fun c => PeerEvent.connect c.id)).filter isConnectEv =
      l.map (fun c => PeerEvent.connect c.id) := by
  induction l <;> simp_all [isConnectEv]

/-- C5 (confirmed): for every sequence of arbiter operations
(`applyPeerDiff`, `updateLocalPosition`, `updatePeerPosition`,
`updatePeerDistance`, `removePeer`, evaluation passes) starting from a
fresh `VoicePeerManager`, the connected-peer set satisfies
`|connected| ≤ maxPeers` at every point; and an evaluation pass from any
reachable state admits (emits `connect` for) at most
`maxPeers − |connected after this pass's disconnects|` new peers. -/
theorem arbiter_cap_invariant (distFn : Vector3 → Vector3 → ℚ)
    (connectRadius disconnectRadiusMultiplier : ℚ) (maxPeers : ℕ)
    (ops : List MOp) :
    (runOps distFn ops
        (mkManager connectRadius disconnectRadiusMultiplier maxPeers)
      ).1.connectedPeers.length ≤ maxPeers ∧
    (∀ now : ℤ,
      ((evaluate now (runOps distFn ops
            (mkManager connectRadius disconnectRadiusMultiplier maxPeers)).1
        ).2.filter isConnectEv).length ≤
        maxPeers - (keepOf (runOps distFn ops
            (mkManager connectRadius disconnectRadiusMultiplier maxPeers)
          ).1).length) := by
  have hinv := runOps_capInv distFn maxPeers ops
    (mkManager connectRadius disconnectRadiusMultiplier maxPeers) []
    ⟨rfl, List.nodup_nil, by simp [mkManager]⟩
  rw [runOps]
  set st' := (ops.foldl (fun acc op =>
    let r := mstep distFn acc.1 op
    (r.1, acc.2 ++ r.2))
    (mkManager connectRadius disconnectRadiusMultiplier maxPeers, [])).1
    with hst
  obtain ⟨hm, hnd, hlen⟩ := hinv
  refine ⟨hlen, ?_⟩
  intro now
  rw [evaluate_eq now st' hnd]
  by_cases h0 : st'.maxPeers - (keepOf st').length = 0
  · rw [if_pos h0]
    simp [filter_isConnect_disc]
  · rw [if_neg h0]
    simp only [List.filter_append, filter_isConnect_disc,
      filter_isConnect_conn, List.nil_append, List.length_map]
    have h1 := admOf_length_le st'
    rw [hm] at h1
    exact h1

/-! ### Hysteresis (claim C4) -/

theorem mapGet_mem {v : Type} {m : List (String × v)} {k : String} {x : v}
    (h : mapGet m k = some x) : (k, x) ∈ m := by
  induction m with
  | nil => simp [mapGet] at h
  | cons e rest ih =>
      rw [mapGet] at h
      by_cases he : e.1 = k
      · rw [if_pos he] at h
        have hex : e = (k, x) := by
          obtain ⟨e1, e2⟩ := e
          simp_all
        rw [hex]
        exact List.mem_cons_self _ _
      · rw [if_neg he] at h
        exact List.mem_cons_of_mem _ (ih h)

/-- The events of one `evaluate` pass are exactly the `discOf` disconnects
followed by the `admOf` connects. -/
theorem evaluate_events (now : ℤ) (st : ManagerState)
    (hnd : st.connectedPeers.Nodup) :
    (evaluate now st).2 = (discOf st).map PeerEvent.disconnect ++
      (if st.maxPeers - (keepOf st).length = 0 then []
       else (admOf st).map (fun c => PeerEvent.connect c.id)) := by
  rw [evaluate_eq now st hnd]
  by_cases h0 : st.maxPeers - (keepOf st).length = 0
  · rw [if_pos h0, if_pos h0]
    simp
  · rw [if_neg h0, if_neg h0]

/-- No `evaluate` pass disconnects a connected peer that is still a
candidate within the disconnect threshold. -/
theorem evaluate_no_spurious_disconnect (now : ℤ) (st : ManagerState)
    (q : String) (hnd : st.connectedPeers.Nodup)
    (hcand : st.candidateIds.contains q = true)
    (hdist : (stateDistance st q).leq (disThr st) = true) :
    PeerEvent.disconnect q ∉ (evaluate now st).2 := by
  rw [evaluate_events now st hnd]
  intro hmem
  rcases List.mem_append.mp hmem with hmem | hmem
  · rcases List.mem_map.mp hmem with ⟨x, hx, hxe⟩
    have hxq : x = q := by
      injection hxe
    subst hxq
    have : keepCond st (disThr st) x = false := by
      have := List.mem_filter.mp hx
      simpa using this.2
    rw [keepCond, hcand, hdist] at this
    simp at this
  · by_cases h0 : st.maxPeers - (keepOf st).length = 0
    · rw [if_pos h0] at hmem
      simp at hmem
    · rw [if_neg h0] at hmem
      rcases List.mem_map.mp hmem with ⟨c, _, hce⟩
      injection hce

/-- No `evaluate` pass connects a peer whose recorded distance exceeds
`connectRadius` (in particular an unknown distance, recorded as infinite,
never connects). -/
theorem evaluate_no_far_connect (now : ℤ) (st : ManagerState) (q : String)
    (hnd : st.connectedPeers.Nodup)
    (hids : ∀ pr ∈ st.peerStates, pr.2.id = pr.1)
    (hdist : ¬ (stateDistance st q).leq st.connectRadius = true) :
    PeerEvent.connect q ∉ (evaluate now st).2 := by
  rw [evaluate_events now st hnd]
  intro hmem
  rcases List.mem_append.mp hmem with hmem | hmem
  · rcases List.mem_map.mp hmem with ⟨x, _, hxe⟩
    injection hxe
  · by_cases h0 : st.maxPeers - (keepOf st).length = 0
    · rw [if_pos h0] at hmem
      simp at hmem
    · rw [if_neg h0] at hmem
      rcases List.mem_map.mp hmem with ⟨c, hc, hce⟩
      have hcq : c.id = q := by
        injection hce
      have hc2 : c ∈ candOf st := by
        have hsub : c ∈ sortBy (fun a b : PeerState => a.distance.le b.distance)
            (candOf st) := List.Sublist.mem hc (List.take_sublist _ _)
        exact (mem_sortBy _ c _).mp hsub
      rw [candOf] at hc2
      rcases List.mem_filterMap.mp hc2 with ⟨k, hk, hke⟩
      by_cases hkc : (keepOf st).contains k = true
      · simp only [hkc, if_true] at hke
        exact Option.noConfusion hke
      · simp only [hkc, Bool.false_eq_true, if_false] at hke
        cases hm : mapGet st.peerStates k with
        | none => rw [hm] at hke; simp at hke
        | some s =>
            rw [hm] at hke
            by_cases hld : s.distance.leq st.connectRadius = true
            · simp only [hld, Bool.not_true, Bool.false_eq_true, if_false,
                Option.some.injEq] at hke
              have hsk : s.id = k := hids (k, s) (mapGet_mem hm)
              have hkq : k = q := by
                rw [← hsk, hke, hcq]
              rw [hkq] at hm
              have hsd : stateDistance st q = s.distance := by
                rw [stateDistance, hm]
              rw [hsd] at hdist
              exact hdist hld
            · have hld' : s.distance.leq st.connectRadius = false :=
                Bool.eq_false_iff.mpr hld
              simp only [hld', Bool.not_false, if_true] at hke
              exact Option.noConfusion hke

theorem runOps_acc (distFn : Vector3 → Vector3 → ℚ) (ops : List MOp) :
    ∀ (st : ManagerState) (evs : List PeerEvent),
    (ops.foldl (fun acc op =>
      let r := mstep distFn acc.1 op
      (r.1, acc.2 ++ r.2)) (st, evs)) =
      ((runOps distFn ops st).1, evs ++ (runOps distFn ops st).2) := by
  induction ops with
  | nil => intro st evs; simp [runOps]
  | cons op ops' ih =>
      intro st evs
      rw [runOps, List.foldl_cons, List.foldl_cons, ih, ih]
      simp

theorem runOps_append (distFn : Vector3 → Vector3 → ℚ) (l1 l2 : List MOp)
    (st : ManagerState) :
    runOps distFn (l1 ++ l2) st =
      ((runOps distFn l2 (runOps distFn l1 st).1).1,
        (runOps distFn l1 st).2 ++
          (runOps distFn l2 (runOps distFn l1 st).1).2) := by
  rw [runOps, List.foldl_append, ← runOps, runOps_acc]

/-- The single-peer arbiter configuration used to state the hysteresis
trace property: `p` is the sole candidate, with an explicitly recorded
distance, and may or may not be connected. -/
def singlePeerState (R mult : ℚ) (maxP : ℕ) (p : String)
    (connected : Bool) (d : EDist) (t : ℤ) : ManagerState :=
  { connectRadius := R
    disconnectRadiusMultiplier := mult
    maxPeers := maxP
    candidateIds := [p]
    peerStates := [(p, { id := p, distance := d, lastUpdated := t,
                         hasExplicitDistance := true })]
    connectedPeers := if connected then [p] else []
    localPosition := none
    peerPositions := []
    evaluateArmed := false }

/-- A distance trace for peer `p` as arbiter operations: each step reports
a distance (`updatePeerDistance`) and then runs the debounced evaluation
pass. -/
def hystOps (p : String) (steps : List (ℚ × ℤ)) : List MOp :=
  steps.flatMap (fun s =>
    [MOp.updatePeerDistance s.2 p (some s.1), MOp.evaluatePass s.2])

theorem singleStep_connect (distFn : Vector3 → Vector3 → ℚ) (R mult : ℚ)
    (maxP : ℕ) (p : String) (d0 : EDist) (t0 : ℤ) (d : ℚ) (t : ℤ)
    (hmax : 1 ≤ maxP) (hd : d ≤ R) :
    runOps distFn (hystOps p [(d, t)])
        (singlePeerState R mult maxP p false d0 t0) =
      (singlePeerState R mult maxP p true (.fin d) t,
        [PeerEvent.connect p]) := by
  obtain ⟨maxP', rfl⟩ : ∃ m, maxP = m + 1 := ⟨maxP - 1, by omega⟩
  simp [runOps, hystOps, mstep, updatePeerDistance, setDistance,
    singlePeerState, mapSet, evaluate, keepCond, stateDistance, mapGet,
    discStep, setDelete, admitFold, setAdd, sortBy, insertBy, pruneKey,
    EDist.leq, hd, List.take]

theorem singleStep_stayOut (distFn : Vector3 → Vector3 → ℚ) (R mult : ℚ)
    (maxP : ℕ) (p : String) (d0 : EDist) (t0 : ℤ) (d : ℚ) (t : ℤ)
    (hmax : 1 ≤ maxP) (hd : ¬ d ≤ R) :
    runOps distFn (hystOps p [(d, t)])
        (singlePeerState R mult maxP p false d0 t0) =
      (singlePeerState R mult maxP p false (.fin d) t, []) := by
  obtain ⟨maxP', rfl⟩ : ∃ m, maxP = m + 1 := ⟨maxP - 1, by omega⟩
  simp [runOps, hystOps, mstep, updatePeerDistance, setDistance,
    singlePeerState, mapSet, evaluate, keepCond, stateDistance, mapGet,
    discStep, setDelete, admitFold, setAdd, sortBy, insertBy, pruneKey,
    EDist.leq, hd, List.take]

theorem singleStep_hold (distFn : Vector3 → Vector3 → ℚ) (R mult : ℚ)
    (maxP : ℕ) (p : String) (d0 : EDist) (t0 : ℤ) (d : ℚ) (t : ℤ)
    (hd : d ≤ R * mult) :
    runOps distFn (hystOps p [(d, t)])
        (singlePeerState R mult maxP p true d0 t0) =
      (singlePeerState R mult maxP p true (.fin d) t, []) := by
  by_cases h1 : maxP - 1 = 0
  · simp [runOps, hystOps, mstep, updatePeerDistance, setDistance,
      singlePeerState, mapSet, evaluate, keepCond, stateDistance, mapGet,
      discStep, setDelete, admitFold, setAdd, sortBy, insertBy, pruneKey,
      EDist.leq, hd, h1, List.take]
  · simp [runOps, hystOps, mstep, updatePeerDistance, setDistance,
      singlePeerState, mapSet, evaluate, keepCond, stateDistance, mapGet,
      discStep, setDelete, admitFold, setAdd, sortBy, insertBy, pruneKey,
      EDist.leq, hd, h1, List.take]

theorem singleStep_drop (distFn : Vector3 → Vector3 → ℚ) (R mult : ℚ)
    (maxP : ℕ) (p : String) (d0 : EDist) (t0 : ℤ) (d : ℚ) (t : ℤ)
    (hmax : 1 ≤ maxP) (hRD : R ≤ R * mult) (hd : ¬ d ≤ R * mult) :
    runOps distFn (hystOps p [(d, t)])
        (singlePeerState R mult maxP p true d0 t0) =
      (singlePeerState R mult maxP p false (.fin d) t,
        [PeerEvent.disconnect p]) := by
  obtain ⟨maxP', rfl⟩ : ∃ m, maxP = m + 1 := ⟨maxP - 1, by omega⟩
  have hdR : ¬ d ≤ R := fun h => hd (h.trans hRD)
  simp [runOps, hystOps, mstep, updatePeerDistance, setDistance,
    singlePeerState, mapSet, evaluate, keepCond, stateDistance, mapGet,
    discStep, setDelete, admitFold, setAdd, sortBy, insertBy, pruneKey,
    EDist.leq, hd, hdR, List.take]

theorem tracePhase_out (distFn : Vector3 → Vector3 → ℚ) (R mult : ℚ)
    (maxP : ℕ) (p : String) (hmax : 1 ≤ maxP) (steps : List (ℚ × ℤ)) :
    ∀ (d0 : EDist) (t0 : ℤ), (∀ s ∈ steps, ¬ s.1 ≤ R) →
    ∃ d' t', runOps distFn (hystOps p steps)
        (singlePeerState R mult maxP p false d0 t0) =
      (singlePeerState R mult maxP p false d' t', []) := by
  induction steps with
  | nil => intro d0 t0 _; exact ⟨d0, t0, rfl⟩
  | cons s rest ih =>
      obtain ⟨dv, tv⟩ := s
      intro d0 t0 h
      have hsplit : hystOps p ((dv, tv) :: rest) =
          hystOps p [(dv, tv)] ++ hystOps p rest := by
        simp [hystOps]
      have h1 := singleStep_stayOut distFn R mult maxP p d0 t0 dv tv hmax
        (h (dv, tv) (List.mem_cons_self _ _))
      obtain ⟨d', t', h2⟩ := ih (.fin dv) tv
        (fun x hx => h x (List.mem_cons_of_mem _ hx))
      refine ⟨d', t', ?_⟩
      rw [hsplit, runOps_append]
      simp [h1, h2]

theorem tracePhase_hold (distFn : Vector3 → Vector3 → ℚ) (R mult : ℚ)
    (maxP : ℕ) (p : String) (steps : List (ℚ × ℤ)) :
    ∀ (d0 : EDist) (t0 : ℤ), (∀ s ∈ steps, s.1 ≤ R * mult) →
    ∃ d' t', runOps distFn (hystOps p steps)
        (singlePeerState R mult maxP p true d0 t0) =
      (singlePeerState R mult maxP p true d' t', []) := by
  induction steps with
  | nil => intro d0 t0 _; exact ⟨d0, t0, rfl⟩
  | cons s rest ih =>
      obtain ⟨dv, tv⟩ := s
      intro d0 t0 h
      have hsplit : hystOps p ((dv, tv) :: rest) =
          hystOps p [(dv, tv)] ++ hystOps p rest := by
        simp [hystOps]
      have h1 := singleStep_hold distFn R mult maxP p d0 t0 dv tv
        (h (dv, tv) (List.mem_cons_self _ _))
      obtain ⟨d', t', h2⟩ := ih (.fin dv) tv
        (fun x hx => h x (List.mem_cons_of_mem _ hx))
      refine ⟨d', t', ?_⟩
      rw [hsplit, runOps_append]
      simp [h1, h2]

/-- C4 (confirmed): arbiter hysteresis. (1) For a candidate peer `p` whose
reported distance trace stays above `connectRadius`, enters
`≤ connectRadius` once (getting connected), stays within the disconnect
threshold, rises above it once, and afterwards never returns to
`≤ connectRadius`, the arbiter emits exactly the two events
`connect p, disconnect p` over the whole trace. (2) No evaluation pass
disconnects a connected peer that is still a candidate with distance at
most the disconnect threshold. (3) No evaluation pass connects a peer whose
recorded distance exceeds `connectRadius`. -/
theorem arbiter_hysteresis :
    (∀ (distFn : Vector3 → Vector3 → ℚ) (R mult : ℚ) (maxP : ℕ)
      (p : String) (d0 : EDist) (t0 tIn tOut : ℤ)
      (pre mid post : List (ℚ × ℤ)) (dIn dOut : ℚ),
      1 ≤ maxP → R ≤ R * mult →
      (∀ s ∈ pre, ¬ s.1 ≤ R) → dIn ≤ R →
      (∀ s ∈ mid, s.1 ≤ R * mult) → ¬ dOut ≤ R * mult →
      (∀ s ∈ post, ¬ s.1 ≤ R) →
      (runOps distFn
          (hystOps p (pre ++ (dIn, tIn) :: (mid ++ (dOut, tOut) :: post)))
          (singlePeerState R mult maxP p false d0 t0)).2 =
        [PeerEvent.connect p, PeerEvent.disconnect p]) ∧
    (∀ (now : ℤ) (st : ManagerState) (q : String),
      st.connectedPeers.Nodup → st.candidateIds.contains q = true →
      (stateDistance st q).leq (disThr st) = true →
      PeerEvent.disconnect q ∉ (evaluate now st).2) ∧
    (∀ (now : ℤ) (st : ManagerState) (q : String),
      st.connectedPeers.Nodup → (∀ pr ∈ st.peerStates, pr.2.id = pr.1) →
      ¬ (stateDistance st q).leq st.connectRadius = true →
      PeerEvent.connect q ∉ (evaluate now st).2) := by
  refine ⟨?_, evaluate_no_spurious_disconnect, evaluate_no_far_connect⟩
  intro distFn R mult maxP p d0 t0 tIn tOut pre mid post dIn dOut
    hmax hRD hpre hIn hmid hOut hpost
  have hsplit : hystOps p
      (pre ++ (dIn, tIn) :: (mid ++ (dOut, tOut) :: post)) =
      hystOps p pre ++ (hystOps p [(dIn, tIn)] ++ (hystOps p mid ++
        (hystOps p [(dOut, tOut)] ++ hystOps p post))) := by
    simp [hystOps]
  obtain ⟨d1, t1, h1⟩ := tracePhase_out distFn R mult maxP p hmax pre
    d0 t0 hpre
  have h2 := singleStep_connect distFn R mult maxP p d1 t1 dIn tIn hmax hIn
  obtain ⟨d3, t3, h3⟩ := tracePhase_hold distFn R mult maxP p mid
    (.fin dIn) tIn hmid
  have h4 := singleStep_drop distFn R mult maxP p d3 t3 dOut tOut hmax
    hRD hOut
  obtain ⟨d5, t5, h5⟩ := tracePhase_out distFn R mult maxP p hmax post
    (.fin dOut) tOut hpost
  rw [hsplit]
  simp [runOps_append, h1, h2, h3, h4, h5]

/-- Witness for `arbiter_hysteresis` at the repository's own test scenario
(`connectRadius 30`, multiplier `3/2`): distances 10, 42, 55, 42 produce
exactly `connect`, `disconnect`. -/
theorem arbiter_hysteresis_witness :
    (runOps (fun _ _ => 0)
        (hystOps "p3" ([] ++ (10, 0) :: ([(42, 1)] ++ (55, 2) :: [(42, 3)])))
        (singlePeerState 30 (3/2) 8 "p3" false EDist.inf 0)).2 =
      [PeerEvent.connect "p3", PeerEvent.disconnect "p3"] := by
  exact arbiter_hysteresis.1 (fun _ _ => 0) 30 (3/2) 8 "p3" EDist.inf 0 0 2
    [] [(42, 1)] [(42, 3)] 10 55 (by norm_num) (by norm_num)
    (by intro s hs; simp at hs) (by norm_num)
    (by intro s hs; simp at hs; rw [hs]; norm_num) (by norm_num)
    (by intro s hs; simp at hs; rw [hs]; norm_num)

/-! ### Slot fill and event ordering (claim C8) -/

theorem mem_candOf (st : ManagerState) (c : PeerState) (hc : c ∈ candOf st)
    (hids : ∀ pr ∈ st.peerStates, pr.2.id = pr.1) :
    c.distance.leq st.connectRadius = true ∧
    mapGet st.peerStates c.id = some c ∧
    (keepOf st).contains c.id = false ∧ c.id ∈ st.candidateIds := by
  rw [candOf] at hc
  rcases List.mem_filterMap.mp hc with ⟨k, hk, hke⟩
  by_cases hkc : (keepOf st).contains k = true
  · simp only [hkc, if_true] at hke
    exact Option.noConfusion hke
  · simp only [hkc, Bool.false_eq_true, if_false] at hke
    cases hm : mapGet st.peerStates k with
    | none => rw [hm] at hke; simp at hke
    | some s =>
        rw [hm] at hke
        by_cases hld : s.distance.leq st.connectRadius = true
        · simp only [hld, Bool.not_true, Bool.false_eq_true, if_false,
            Option.some.injEq] at hke
          subst hke
          have hsk : s.id = k := hids (k, s) (mapGet_mem hm)
          rw [hsk]
          exact ⟨hld, hm, Bool.eq_false_iff.mpr hkc, hk⟩
        · have hld' := Bool.eq_false_iff.mpr hld
          simp only [hld', Bool.not_false, if_true] at hke
          exact Option.noConfusion hke

theorem mem_of_mem_admOf (st : ManagerState) (c : PeerState)
    (hc : c ∈ admOf st) : c ∈ candOf st :=
  (mem_sortBy _ c _).mp (List.Sublist.mem hc (List.take_sublist _ _))

theorem admOf_sorted (st : ManagerState) :
    (admOf st).Pairwise
      (fun a b : PeerState => a.distance.le b.distance = true) := by
  apply List.Pairwise.sublist (List.take_sublist _ _)
  exact pairwise_sortBy _ (fun a b c => edLe_trans a.distance b.distance
    c.distance) (fun a b => edLe_total a.distance b.distance) (candOf st)

theorem filterMap_ids_sublist (f : String → Option PeerState)
    (hf : ∀ k c, f k = some c → c.id = k) :
    ∀ l : List String, ((l.filterMap f).map (fun c => c.id)).Sublist l := by
  intro l
  induction l with
  | nil => simp
  | cons k rest ih =>
      rw [List.filterMap_cons]
      cases hk : f k with
      | none => exact List.Sublist.cons k ih
      | some c =>
          rw [List.map_cons, hf k c hk]
          exact List.Sublist.cons₂ k ih

theorem candOf_ids_sublist (st : ManagerState)
    (hids : ∀ pr ∈ st.peerStates, pr.2.id = pr.1) :
    ((candOf st).map (fun c => c.id)).Sublist st.candidateIds := by
  rw [candOf]
  apply filterMap_ids_sublist
  intro k c hke
  by_cases hkc : (keepOf st).contains k = true
  · simp only [hkc, if_true] at hke
    exact Option.noConfusion hke
  · simp only [hkc, Bool.false_eq_true, if_false] at hke
    cases hm : mapGet st.peerStates k with
    | none => rw [hm] at hke; simp at hke
    | some s =>
        rw [hm] at hke
        by_cases hld : s.distance.leq st.connectRadius = true
        · simp only [hld, Bool.not_true, Bool.false_eq_true, if_false,
            Option.some.injEq] at hke
          subst hke
          exact hids (k, s) (mapGet_mem hm)
        · have hld' := Bool.eq_false_iff.mpr hld
          simp only [hld', Bool.not_false, if_true] at hke
          exact Option.noConfusion hke

theorem admOf_ids_nodup (st : ManagerState)
    (hids : ∀ pr ∈ st.peerStates, pr.2.id = pr.1)
    (hcnd : st.candidateIds.Nodup) :
    ((admOf st).map (fun c => c.id)).Nodup := by
  have hcand : ((candOf st).map (fun c => c.id)).Nodup :=
    List.Nodup.sublist (candOf_ids_sublist st hids) hcnd
  have hsort : ((sortBy (fun a b : PeerState => a.distance.le b.distance)
      (candOf st)).map (fun c => c.id)).Nodup :=
    ((sortBy_perm _ (candOf st)).map (fun c => c.id)).nodup_iff.mpr hcand
  rw [admOf, List.map_take]
  exact List.Nodup.sublist (List.take_sublist _ _) hsort

theorem mem_admitFold_of_mem (l : List PeerState) :
    ∀ (s : List String) (x : String), x ∈ s → x ∈ admitFold s l := by
  induction l with
  | nil => intro s x hx; exact hx
  | cons c l' ih =>
      intro s x hx
      exact ih (setAdd s c.id) x (mem_setAdd_of_mem c.id hx)

theorem id_mem_admitFold (l : List PeerState) :
    ∀ (s : List String) (c : PeerState), c ∈ l → c.id ∈ admitFold s l := by
  induction l with
  | nil => intro s c hc; simp at hc
  | cons c0 l' ih =>
      intro s c hc
      rcases List.mem_cons.mp hc with hc | hc
      · subst hc
        exact mem_admitFold_of_mem l' (setAdd s c.id) c.id
          (mem_setAdd_self s c.id)
      · exact ih (setAdd s c0.id) c hc

theorem admitFold_length_eq (l : List PeerState) :
    ∀ s : List String, (∀ c ∈ l, c.id ∉ s) →
    ((l.map (fun c => c.id)).Nodup) →
    (admitFold s l).length = s.length + l.length := by
  induction l with
  | nil => intro s _ _; simp [admitFold]
  | cons c l' ih =>
      intro s hfresh hnd
      rw [List.map_cons, List.nodup_cons] at hnd
      have hcs : c.id ∉ s := hfresh c (List.mem_cons_self c l')
      have hstep : setAdd s c.id = s ++ [c.id] := by
        rw [setAdd, if_neg hcs]
      have h2 := ih (setAdd s c.id)
        (by
          intro c' hc' hmem
          rw [hstep] at hmem
          rcases List.mem_append.mp hmem with hmem | hmem
          · exact hfresh c' (List.mem_cons_of_mem c hc') hmem
          · have : c'.id = c.id := by simpa using hmem
            exact hnd.1 (this ▸ List.mem_map_of_mem (fun x => x.id) hc'))
        hnd.2
      simp only [admitFold, List.foldl_cons] at *
      rw [h2, hstep]
      simp
      omega

theorem contains_eq_true_iff (l : List String) (x : String) :
    l.contains x = true ↔ x ∈ l := by
  simp [List.contains]

theorem contains_eq_false_iff (l : List String) (x : String) :
    l.contains x = false ↔ x ∉ l := by
  rw [← Bool.not_eq_true, contains_eq_true_iff]

/-- When a pass has free slots and a candidate with recorded distance within
`connectRadius` exists, it is admitted unless the connected set already sits
at the cap by the end of the pass. -/
theorem evaluate_slot_fill_core (now : ℤ) (st : ManagerState)
    (hnd : st.connectedPeers.Nodup)
    (hids : ∀ pr ∈ st.peerStates, pr.2.id = pr.1)
    (hcnd : st.candidateIds.Nodup)
    (hcap : st.connectedPeers.length ≤ st.maxPeers)
    (r : String) (hr : r ∈ st.candidateIds)
    (hdr : (stateDistance st r).leq st.connectRadius = true) :
    r ∈ (evaluate now st).1.connectedPeers ∨
      (evaluate now st).1.connectedPeers.length = st.maxPeers := by
  rw [evaluate_eq now st hnd]
  have hklen : (keepOf st).length ≤ st.connectedPeers.length :=
    keepOf_length_le st
  by_cases h0 : st.maxPeers - (keepOf st).length = 0
  · rw [if_pos h0]
    right
    show (keepOf st).length = st.maxPeers
    omega
  · rw [if_neg h0]
    by_cases hkr : r ∈ keepOf st
    · left
      exact mem_admitFold_of_mem _ _ _ hkr
    · cases hm : mapGet st.peerStates r with
      | none =>
          rw [stateDistance, hm] at hdr
          simp [EDist.leq] at hdr
      | some s =>
          have hsid : s.id = r := hids (r, s) (mapGet_mem hm)
          have hsd : s.distance.leq st.connectRadius = true := by
            rw [stateDistance, hm] at hdr
            exact hdr
          have hkrc : (keepOf st).contains r = false :=
            (contains_eq_false_iff _ _).mpr hkr
          have hscand : s ∈ candOf st := by
            rw [candOf]
            apply List.mem_filterMap.mpr
            refine ⟨r, hr, ?_⟩
            simp only [hkrc, Bool.false_eq_true, if_false, hm, hsd,
              Bool.not_true, Bool.false_eq_true]
          by_cases hadm : s ∈ admOf st
          · left
            have hmem := id_mem_admitFold (admOf st) (keepOf st) s hadm
            rw [hsid] at hmem
            exact hmem
          · right
            show (admitFold (keepOf st) (admOf st)).length = st.maxPeers
            have hsort : s ∈ sortBy
                (fun a b : PeerState => a.distance.le b.distance)
                (candOf st) := (mem_sortBy _ _ _).mpr hscand
            have hlt : st.maxPeers - (keepOf st).length ≤
                (sortBy (fun a b : PeerState => a.distance.le b.distance)
                  (candOf st)).length := by
              by_contra hlt
              push_neg at hlt
              have : admOf st = sortBy
                  (fun a b : PeerState => a.distance.le b.distance)
                  (candOf st) := by
                rw [admOf]
                exact List.take_of_length_le (le_of_lt hlt)
              exact hadm (this ▸ hsort)
            have hlen : (admOf st).length =
                st.maxPeers - (keepOf st).length := by
              rw [admOf, List.length_take]
              omega
            have hfresh : ∀ c ∈ admOf st, c.id ∉ keepOf st := by
              intro c hc
              have h := mem_candOf st c (mem_of_mem_admOf st c hc) hids
              exact (contains_eq_false_iff _ _).mp h.2.2.1
            have hnodup := admOf_ids_nodup st hids hcnd
            rw [admitFold_length_eq (admOf st) (keepOf st) hfresh hnodup,
              hlen]
            omega

/-- C8 (corrected): in a single `evaluate` pass, (1) all `disconnect`
events precede all `connect` events, the connects are emitted in ascending
order of recorded distance, and every admitted peer sits within
`connectRadius`; (2) when a candidate with recorded distance within
`connectRadius` exists, the pass admits it unless the pass ends at the cap
— so a slot freed by a radius disconnect is refilled by the next-closest
candidate in the same pass; (3) `removePeer`, by contrast, emits only the
`disconnect` for the removed peer and does not arm the evaluation timer, so
removal triggers no admission pass at all (the claim's removal clause fails;
see the counterexample). -/
theorem evaluate_slot_fill_ordering :
    (∀ (now : ℤ) (st : ManagerState), st.connectedPeers.Nodup →
      ∃ adm : List PeerState,
        (evaluate now st).2 = (discOf st).map PeerEvent.disconnect ++
          adm.map (fun c => PeerEvent.connect c.id) ∧
        adm.Pairwise (fun a b => a.distance.le b.distance = true) ∧
        ((∀ pr ∈ st.peerStates, pr.2.id = pr.1) → ∀ c ∈ adm,
          c.distance.leq st.connectRadius = true ∧
          stateDistance st c.id = c.distance)) ∧
    (∀ (now : ℤ) (st : ManagerState) (r : String),
      st.connectedPeers.Nodup → (∀ pr ∈ st.peerStates, pr.2.id = pr.1) →
      st.candidateIds.Nodup → st.connectedPeers.length ≤ st.maxPeers →
      r ∈ st.candidateIds →
      (stateDistance st r).leq st.connectRadius = true →
      r ∈ (evaluate now st).1.connectedPeers ∨
        (evaluate now st).1.connectedPeers.length = st.maxPeers) ∧
    (∀ (q : String) (st : ManagerState),
      (∀ e ∈ (removePeer q st).2, e = PeerEvent.disconnect q) ∧
      (removePeer q st).1.evaluateArmed = st.evaluateArmed) := by
  refine ⟨?_, fun now st r h1 h2 h3 h4 h5 h6 =>
    evaluate_slot_fill_core now st h1 h2 h3 h4 r h5 h6, ?_⟩
  · intro now st hnd
    by_cases h0 : st.maxPeers - (keepOf st).length = 0
    · refine ⟨[], ?_, List.Pairwise.nil, ?_⟩
      · rw [evaluate_events now st hnd, if_pos h0]
        simp
      · intro _ c hc
        simp at hc
    · refine ⟨admOf st, ?_, admOf_sorted st, ?_⟩
      · rw [evaluate_events now st hnd, if_neg h0]
      · intro hids c hc
        have h := mem_candOf st c (mem_of_mem_admOf st c hc) hids
        refine ⟨h.1, ?_⟩
        rw [stateDistance, h.2.1]
  · intro q st
    constructor
    · intro e he
      by_cases hc : st.connectedPeers.contains q = true
      · simp only [removePeer, hc, if_true] at he
        simpa using he
      · simp only [removePeer, hc, Bool.false_eq_true, if_false] at he
        simp at he
    · by_cases hc : st.connectedPeers.contains q = true
      · simp only [removePeer, hc, if_true]
      · simp only [removePeer, hc, Bool.false_eq_true, if_false]

/-- Counterexample to C8 as stated: in a state where `q` is connected and
candidate `r` sits at distance 10 ≤ connectRadius with seven free slots,
`removePeer q` frees a slot but emits only `disconnect q` — no `connect r`
accompanies the removal, and no evaluation pass is scheduled
(`evaluateArmed` stays false). -/
theorem remove_peer_no_refill_counterexample :
    (removePeer "q"
      { connectRadius := 30
        disconnectRadiusMultiplier := 3/2
        maxPeers := 8
        candidateIds := ["q", "r"]
        peerStates := [
          ("q", { id := "q", distance := .fin 5, lastUpdated := 0,
                  hasExplicitDistance := true }),
          ("r", { id := "r", distance := .fin 10, lastUpdated := 0,
                  hasExplicitDistance := true })]
        connectedPeers := ["q"]
        localPosition := none
        peerPositions := []
        evaluateArmed := false }).2 = [PeerEvent.disconnect "q"] ∧
    (removePeer "q"
      { connectRadius := 30
        disconnectRadiusMultiplier := 3/2
        maxPeers := 8
        candidateIds := ["q", "r"]
        peerStates := [
          ("q", { id := "q", distance := .fin 5, lastUpdated := 0,
                  hasExplicitDistance := true }),
          ("r", { id := "r", distance := .fin 10, lastUpdated := 0,
                  hasExplicitDistance := true })]
        connectedPeers := ["q"]
        localPosition := none
        peerPositions := []
        evaluateArmed := false }).1.evaluateArmed = false := by
  constructor
  · rfl
  · rfl

/-- Witness for `evaluate_slot_fill_ordering`: in a pass where connected
`q` has drifted to distance 50 (outside the 45 disconnect threshold) and
candidate `r` sits at distance 10, the pass that disconnects `q` admits
`r`. -/
theorem evaluate_slot_fill_ordering_witness :
    "r" ∈ (evaluate 0
      { connectRadius := 30
        disconnectRadiusMultiplier := 3/2
        maxPeers := 1
        candidateIds := ["q", "r"]
        peerStates := [
          ("q", { id := "q", distance := .fin 50, lastUpdated := 0,
                  hasExplicitDistance := true }),
          ("r", { id := "r", distance := .fin 10, lastUpdated := 0,
                  hasExplicitDistance := true })]
        connectedPeers := ["q"]
        localPosition := none
        peerPositions := []
        evaluateArmed := false }).1.connectedPeers ∨
    (evaluate 0
      { connectRadius := 30
        disconnectRadiusMultiplier := 3/2
        maxPeers := 1
        candidateIds := ["q", "r"]
        peerStates := [
          ("q", { id := "q", distance := .fin 50, lastUpdated := 0,
                  hasExplicitDistance := true }),
          ("r", { id := "r", distance := .fin 10, lastUpdated := 0,
                  hasExplicitDistance := true })]
        connectedPeers := ["q"]
        localPosition := none
        peerPositions := []
        evaluateArmed := false }).1.connectedPeers.length = 1 := by
  exact evaluate_slot_fill_ordering.2.1 0 _ "r"
    (by decide) (by decide) (by decide) (by decide) (by decide) (by decide)

/-! ## JSON values

Inbound frames reach the shard as parsed JSON; handler field accesses are
embedded by `jget`, with `none` standing for JS `undefined`. -/

inductive Json where
  | null
  | bool (b : Bool)
  | num (q : ℚ)
  | str (s : String)
  | arr (items : List Json)
  | obj (fields : List (String × Json))

/-- Property access `j.k` on a parsed JSON value: `none` is JS `undefined`
(missing key, or access on a non-object). -/
def jget : Json → String → Option Json
  | .obj fields, k => mapGet fields k
  | _, _ => none

/-- JS truthiness of a JSON value (used for `if (player.position)`). -/
def truthy : Json → Bool
  | .null => false
  | .bool b => b
  | .num q => decide (q ≠ 0)
  | .str s => decide (s ≠ "")
  | .arr _ => true
  | .obj _ => true

/-! ## The shard actor (`src/src/worldShard.ts`) -/

/-- `PendingSession` (lines 9-11). -/
structure PendingSession where
  playerId : String
  sessionToken : String
  createdAt : ℤ
deriving DecidableEq

/-- `PlayerConnection` (lines 13-21). The socket is identified by the
stable `id`; `position` stores whatever JSON value the `position` frame
carried (`handlePosition` performs no shape validation). The
`positionsLogged` console-logging counter is omitted (it only drives
`console.log`). -/
structure PlayerConnection where
  id : String
  playerId : String
  sessionToken : String
  lastSeen : ℤ
  lastPositionAt : Option ℤ
  position : Option Json

/-- `AnonymousConnection` (lines 23-27). -/
structure AnonymousConnection where
  id : String
  lastSeen : ℤ
deriving DecidableEq

/-- Outbound frames (`JSON.stringify` arguments of the shard's sends). -/
inductive OutFrame where
  | registered (playerId : String)
  | errFrame (message : String)
  | signal (src : String) (payload : Option Json)
  | signalDeliveryFailed (targetId : Option Json)
  | peers (peerIds : List String) (added removed : Option (List String))
      (distances : Option (List (String × ℚ)))
      (positions : Option (List (String × Json))) (totalPlayers : ℕ)

/-- One observable socket effect: a frame sent on, or a close of, the
socket belonging to connection `connId`. -/
inductive OutEvent where
  | send (connId : String) (frame : OutFrame)
  | close (connId : String) (code : ℕ) (reason : String)

/-- The `WorldShard` instance fields (lines 90-103); the two timers are
represented by their armed flags. -/
structure ShardState where
  pendingSessionsByToken : List (String × PendingSession)
  pendingSessionsByPlayer : List (String × String)
  connectionsByPlayer : List (String × PlayerConnection)
  anonymousConnections : List (String × AnonymousConnection)
  peerViewByPlayer : List (String × List String)
  peerDistancesByPlayer : List (String × List (String × ℚ))
  proximityTimerArmed : Bool
  cleanupTimerArmed : Bool

def emptyShard : ShardState :=
  { pendingSessionsByToken := []
    pendingSessionsByPlayer := []
    connectionsByPlayer := []
    anonymousConnections := []
    peerViewByPlayer := []
    peerDistancesByPlayer := []
    proximityTimerArmed := false
    cleanupTimerArmed := false }

/-- `decodeSocketMessage` (lines 71-87) after `JSON.parse` succeeded: the
value passes iff it has a string `type` property (non-objects and arrays
have none). -/
def decodeSocketMessage (parsed : Json) : Option Json :=
  match jget parsed "type" with
  | some (.str _) => some parsed
  | _ => none

/-- `lookupConnection` (lines 439-447): first registered connection with
this socket id, in insertion order. -/
def lookupConnection (st : ShardState) (connectionId : String) :
    Option PlayerConnection :=
  (st.connectionsByPlayer.find? (fun pr => pr.2.id == connectionId)).map
    (fun pr => pr.2)

/-- `sendToConnection` (lines 449-464). -/
def sendToConnection (st : ShardState) (connectionId : String)
    (frame : OutFrame) : List OutEvent :=
  if (mapGet st.anonymousConnections connectionId).isSome then
    [.send connectionId frame]
  else
    match lookupConnection st connectionId with
    | some _ => [.send connectionId frame]
    | none => []

/-- In-place mutation of the first registered connection object with this
socket id (JS mutates the object found by `lookupConnection`). -/
def updateConnById (m : List (String × PlayerConnection))
    (connectionId : String) (f : PlayerConnection → PlayerConnection) :
    List (String × PlayerConnection) :=
  match m with
  | [] => []
  | (k, c) :: rest =>
      if c.id = connectionId then (k, f c) :: rest
      else (k, c) :: updateConnById rest connectionId f

/-- The invalid-session-token reply of `handleRegister` (lines 257-264):
`error` frame, close 4001, drop the anonymous entry. The pending session
(if any) is left untouched. -/
def registerRejected (connectionId : String) (st : ShardState) :
    ShardState × List OutEvent :=
  ({ st with anonymousConnections :=
      mapDelete st.anonymousConnections connectionId },
    [.send connectionId (.errFrame "Invalid session token"),
     .close connectionId 4001 "Invalid session token"])

/-- `handleRegister` (lines 244-296). The session token and player id come
from the unvalidated frame: a non-string token can never be a key of
`pendingSessionsByToken`, and the player id must equal the pending
session's string to pass `!==`. On success the pending session is consumed
from both indexes, the anonymous entry is promoted (displacing any prior
connection registered for that player id), both timers are armed, and
`registered` is sent. Nothing is ever sent to a displaced connection. -/
def handleRegister (connectionId : String) (msg : Json) (now : ℤ)
    (st : ShardState) : ShardState × List OutEvent :=
  match mapGet st.anonymousConnections connectionId with
  | none => (st, sendToConnection st connectionId
      (.errFrame "Connection not found"))
  | some _ =>
      match jget msg "sessionToken" with
      | some (.str tok) =>
          (match mapGet st.pendingSessionsByToken tok with
          | some exp =>
              (match jget msg "playerId" with
              | some (.str pid) =>
                  if pid = exp.playerId then
                    let conn : PlayerConnection :=
                      { id := connectionId, playerId := exp.playerId,
                        sessionToken := tok, lastSeen := now,
                        lastPositionAt := none, position := none }
                    ({ st with
                        pendingSessionsByToken :=
                          mapDelete st.pendingSessionsByToken tok
                        pendingSessionsByPlayer :=
                          mapDelete st.pendingSessionsByPlayer exp.playerId
                        anonymousConnections :=
                          mapDelete st.anonymousConnections connectionId
                        connectionsByPlayer :=
                          mapSet st.connectionsByPlayer exp.playerId conn
                        cleanupTimerArmed := true
                        proximityTimerArmed := true },
                      [.send connectionId (.registered exp.playerId)])
                  else registerRejected connectionId st
              | _ => registerRejected connectionId st)
          | none => registerRejected connectionId st)
      | _ => registerRejected connectionId st

/-- `handleHeartbeat` (lines 298-306). -/
def handleHeartbeat (connectionId : String) (now : ℤ) (st : ShardState) :
    ShardState :=
  match lookupConnection st connectionId with
  | none => st
  | some _ =>
      let m := updateConnById st.connectionsByPlayer connectionId
        (fun c => { c with lastSeen := now })
      { st with connectionsByPlayer := m }

/-- `handlePosition` (lines 308-351). Within the 100 ms rate-limit window
only `lastSeen` refreshes; otherwise the frame's `position` value is
stored *verbatim* (no shape validation) and a proximity recalc is
scheduled. (`connection.lastPositionAt &&` is a JS truthiness test, hence
the `t ≠ 0` conjunct.) -/
def handlePosition (connectionId : String) (msg : Json) (now : ℤ)
    (st : ShardState) : ShardState :=
  match lookupConnection st connectionId with
  | none => st
  | some conn =>
      let rateLimited : Bool :=
        match conn.lastPositionAt with
        | some t => decide (t ≠ 0) && decide (now - t < 100)
        | none => false
      if rateLimited then
        let m := updateConnById st.connectionsByPlayer connectionId
          (fun c => { c with lastSeen := now })
        { st with connectionsByPlayer := m }
      else
        let upd := fun (c : PlayerConnection) =>
          { c with
              position := jget msg "position"
              lastSeen := now
              lastPositionAt := some now }
        let m := updateConnById st.connectionsByPlayer connectionId upd
        { st with connectionsByPlayer := m, proximityTimerArmed := true }

/-- `handleSignalRelay` (lines 353-420). An unregistered source is dropped
silently; a missing target (including a non-string `targetId`, which can
never be a map key) gets `signal-delivery-failed` back on the source
socket; otherwise the payload is forwarded verbatim. The shard state is
never modified. -/
def handleSignalRelay (connectionId : String) (msg : Json)
    (st : ShardState) : ShardState × List OutEvent :=
  match lookupConnection st connectionId with
  | none => (st, [])
  | some source =>
      let target : Option PlayerConnection :=
        match jget msg "targetId" with
        | some (.str tid) => mapGet st.connectionsByPlayer tid
        | _ => none
      match target with
      | none =>
          (st, [.send source.id (.signalDeliveryFailed (jget msg "targetId"))])
      | some tgt =>
          (st, [.send tgt.id (.signal source.playerId (jget msg "payload"))])

/-- `handleDisconnect` (lines 422-437): drop an anonymous entry, or find
the registered connection with this socket id, remove it, close its socket
(1001), drop only *its own* peer view and distances, and schedule a
proximity recalc. -/
def handleDisconnect (connectionId : String) (st : ShardState) :
    ShardState × List OutEvent :=
  if (mapGet st.anonymousConnections connectionId).isSome then
    ({ st with anonymousConnections :=
        mapDelete st.anonymousConnections connectionId }, [])
  else
    match st.connectionsByPlayer.find? (fun pr => pr.2.id == connectionId) with
    | none => (st, [])
    | some pr =>
        ({ st with
            connectionsByPlayer := mapDelete st.connectionsByPlayer pr.1
            peerViewByPlayer := mapDelete st.peerViewByPlayer pr.1
            peerDistancesByPlayer := mapDelete st.peerDistancesByPlayer pr.1
            proximityTimerArmed := true },
          [.close connectionId 1001 "Connection closed"])

/-- `handleSocketMessage` (lines 217-242). -/
def handleSocketMessage (connectionId : String) (msg : Json) (now : ℤ)
    (st : ShardState) : ShardState × List OutEvent :=
  match jget msg "type" with
  | some (.str "register") => handleRegister connectionId msg now st
  | some (.str "heartbeat") => (handleHeartbeat connectionId now st, [])
  | some (.str "position") => (handlePosition connectionId msg now st, [])
  | some (.str "signal") => handleSignalRelay connectionId msg st
  | _ => (st, sendToConnection st connectionId
      (.errFrame "Unknown message type"))

/-- The data of one socket `message` event: a non-string (binary) frame, or
a text frame together with the platform `JSON.parse` outcome (`JSON.parse`
is a runtime primitive; its result — or failure, `none` — is embedded). -/
inductive SocketData where
  | binary
  | text (parsed : Option Json)

/-- The socket `message` listener of `handleSocket` (lines 181-202). -/
def onSocketData (connectionId : String) (data : SocketData) (now : ℤ)
    (st : ShardState) : ShardState × List OutEvent :=
  match data with
  | .binary =>
      (st, [.send connectionId (.errFrame "Messages must be JSON string")])
  | .text parsed =>
      match parsed.bind decodeSocketMessage with
      | none =>
          (st, [.send connectionId (.errFrame "Invalid message format")])
      | some msg => handleSocketMessage connectionId msg now st

/-- `handleSocket` (lines 167-215): accept the socket and store it as an
anonymous connection. -/
def handleSocket (connectionId : String) (now : ℤ) (st : ShardState) :
    ShardState :=
  let anon : AnonymousConnection := { id := connectionId, lastSeen := now }
  { st with anonymousConnections :=
      mapSet st.anonymousConnections connectionId anon }

/-- `pruneExpiredSessions` (lines 466-480). -/
def pruneExpiredSessions (now : ℤ) (st : ShardState) : ShardState :=
  st.pendingSessionsByToken.foldl (fun acc pr =>
    if pr.2.createdAt < now - 60000 then
      let tok1 := mapDelete acc.pendingSessionsByToken pr.1
      let acc1 := { acc with pendingSessionsByToken := tok1 }
      match mapGet acc1.pendingSessionsByPlayer pr.2.playerId with
      | some currentToken =>
          if currentToken = pr.1 then
            let pl1 := mapDelete acc1.pendingSessionsByPlayer pr.2.playerId
            { acc1 with pendingSessionsByPlayer := pl1 }
          else acc1
      | none => acc1
    else acc) st

/-- `handlePrepare` (lines 131-165) on a validated payload: prune expired
pending sessions, evict any existing pending session for the player
(`if (existingToken)` is a JS truthiness test on the stored string), store
the new pair under both indexes. -/
def handlePrepare (playerId sessionToken : String) (now : ℤ)
    (st : ShardState) : ShardState :=
  let st1 := pruneExpiredSessions now st
  let st2 :=
    match mapGet st1.pendingSessionsByPlayer playerId with
    | some existingToken =>
        if existingToken ≠ "" then
          { st1 with
              pendingSessionsByToken :=
                mapDelete st1.pendingSessionsByToken existingToken
              pendingSessionsByPlayer :=
                mapDelete st1.pendingSessionsByPlayer playerId }
        else st1
    | none => st1
  { st2 with
      pendingSessionsByToken := mapSet st2.pendingSessionsByToken sessionToken
        { playerId := playerId, sessionToken := sessionToken, createdAt := now }
      pendingSessionsByPlayer :=
        mapSet st2.pendingSessionsByPlayer playerId sessionToken }

/-- `pruneInactiveConnections` (lines 482-489): disconnect every registered
connection whose `lastSeen` is strictly older than 30 s, iterating over a
snapshot of the registered connections. -/
def pruneInactiveConnections (now : ℤ) (st : ShardState) :
    ShardState × List OutEvent :=
  st.connectionsByPlayer.foldl (fun acc pr =>
    if pr.2.lastSeen < now - 30000 then
      let r := handleDisconnect pr.2.id acc.1
      (r.1, acc.2 ++ r.2)
    else acc) (st, [])

/-- The cleanup timer callback (lines 496-502): clear the timer, prune, and
re-arm while registered connections remain. -/
def cleanupFire (now : ℤ) (st : ShardState) : ShardState × List OutEvent :=
  let r := pruneInactiveConnections now { st with cleanupTimerArmed := false }
  if r.1.connectionsByPlayer.length > 0 then
    ({ r.1 with cleanupTimerArmed := true }, r.2)
  else r

/-- A numeric JSON field; any other shape makes JS arithmetic yield `NaN`,
embedded as `none` (every comparison against `NaN` is false). -/
def numField (j : Json) (k : String) : Option ℚ :=
  match jget j k with
  | some (.num q) => some q
  | _ => none

/-- Squared Euclidean distance of two stored position values (the body of
`distanceBetween`, lines 63-69, before the square root). -/
def dist2 (a b : Json) : Option ℚ :=
  match numField a "x", numField a "y", numField a "z",
        numField b "x", numField b "y", numField b "z" with
  | some ax, some ay, some az, some bx, some by', some bz =>
      some ((ax - bx) * (ax - bx) + (ay - by') * (ay - by') +
        (az - bz) * (az - bz))
  | _, _, _, _, _, _ => none

/-- One observer's loop of `recalculateProximities` (lines 519-541): the
peer set, distances and positions of every *other* positioned player
within `PROXIMITY_RADIUS_METERS = 45`. `sqrtFn` embeds `Math.sqrt` (the
reported distance is `sqrtFn` of the squared distance; a `none` squared
distance is JS `NaN` and fails the radius test). -/
def peerScanStep (sqrtFn : ℚ → ℚ) (player : PlayerConnection) (ppos : Json)
    (acc : List String × List (String × ℚ) × List (String × Json))
    (other : PlayerConnection) :
    List String × List (String × ℚ) × List (String × Json) :=
  if other.playerId = player.playerId then acc
  else
    match other.position with
    | some opos =>
        if truthy opos then
          match dist2 ppos opos with
          | some s =>
              if sqrtFn s ≤ 45 then
                (acc.1 ++ [other.playerId],
                  acc.2.1 ++ [(other.playerId, sqrtFn s)],
                  acc.2.2 ++ [(other.playerId, opos)])
              else acc
          | none => acc
        else acc
    | none => acc

def computePeers (sqrtFn : ℚ → ℚ) (players : List PlayerConnection)
    (player : PlayerConnection) :
    List String × List (String × ℚ) × List (String × Json) :=
  match player.position with
  | some ppos =>
      if truthy ppos then
        players.foldl (peerScanStep sqrtFn player ppos) ([], [], [])
      else ([], [], [])
  | none => ([], [], [])

/-- `publishPeerDiff` (lines 544-619): diff against the stored view; emit
one `peers` frame and commit the new view and distance map unless nothing
was added, nothing removed, and no distance moved by more than
`DISTANCE_CHANGE_EPSILON = 0.5` against the previously-sent value. -/
def publishPeerDiff (st : ShardState) (playerId : String)
    (nextPeers : List String) (distances : List (String × ℚ))
    (positions : List (String × Json)) : ShardState × List OutEvent :=
  match mapGet st.connectionsByPlayer playerId with
  | none => (st, [])
  | some connection =>
      let previousPeers := (mapGet st.peerViewByPlayer playerId).getD []
      let previousDistances :=
        (mapGet st.peerDistancesByPlayer playerId).getD []
      let added := nextPeers.filter
        (fun peer => !(previousPeers.contains peer))
      let removed := previousPeers.filter
        (fun peer => !(nextPeers.contains peer))
      let distanceChanged := distances.any (fun pr =>
        match mapGet previousDistances pr.1 with
        | none => true
        | some prev => decide ((1 : ℚ) / 2 < |prev - pr.2|))
      if added.length = 0 && removed.length = 0 && !distanceChanged then
        (st, [])
      else
        ({ st with
            peerViewByPlayer := mapSet st.peerViewByPlayer playerId nextPeers
            peerDistancesByPlayer :=
              mapSet st.peerDistancesByPlayer playerId distances },
          [.send connection.id (.peers nextPeers
            (if 0 < added.length then some added else none)
            (if 0 < removed.length then some removed else none)
            (if 0 < distances.length then some distances else none)
            (if 0 < positions.length then some positions else none)
            st.connectionsByPlayer.length)])

/-- `recalculateProximities` (lines 516-542). -/
def recalculateProximities (sqrtFn : ℚ → ℚ) (st : ShardState) :
    ShardState × List OutEvent :=
  let players := st.connectionsByPlayer.map (fun pr => pr.2)
  players.foldl (fun acc player =>
    let c := computePeers sqrtFn players player
    let r := publishPeerDiff acc.1 player.playerId c.1 c.2.1 c.2.2
    (r.1, acc.2 ++ r.2)) (st, [])

/-- The proximity debounce timer callback (lines 510-513). -/
def proximityFire (sqrtFn : ℚ → ℚ) (st : ShardState) :
    ShardState × List OutEvent :=
  recalculateProximities sqrtFn { st with proximityTimerArmed := false }

/-- The shard's externally-triggered transitions: socket accept, one socket
message, socket close/error, the admission `prepare` call, and the two
timer callbacks. -/
inductive ShardOp where
  | socketOpen (connId : String) (now : ℤ)
  | socketData (connId : String) (data : SocketData) (now : ℤ)
  | socketClosed (connId : String)
  | prepare (playerId sessionToken : String) (now : ℤ)
  | cleanupTimerFire (now : ℤ)
  | proximityTimerFire

def shardStep (sqrtFn : ℚ → ℚ) (st : ShardState) :
    ShardOp → ShardState × List OutEvent
  | .socketOpen connId now => (handleSocket connId now st, [])
  | .socketData connId data now => onSocketData connId data now st
  | .socketClosed connId => handleDisconnect connId st
  | .prepare playerId sessionToken now =>
      (handlePrepare playerId sessionToken now st, [])
  | .cleanupTimerFire now => cleanupFire now st
  | .proximityTimerFire => proximityFire sqrtFn st

def runShard (sqrtFn : ℚ → ℚ) (ops : List ShardOp) (st : ShardState) :
    ShardState × List OutEvent :=
  ops.foldl (fun acc op =>
    let r := shardStep sqrtFn acc.1 op
    (r.1, acc.2 ++ r.2)) (st, [])

/-! ### Map lemmas for the shard proofs -/

theorem mapGet_mapSet_ne {v : Type} (m : List (String × v)) (k k' : String)
    (x : v) (h : k' ≠ k) : mapGet (mapSet m k x) k' = mapGet m k' := by
  induction m with
  | nil =>
      have hkk : ¬ k = k' := fun hh => h hh.symm
      simp [mapSet, mapGet, hkk]
  | cons e rest ih =>
      by_cases he : e.1 = k
      · rw [mapSet, if_pos he, mapGet, mapGet]
        have : ¬ e.1 = k' := by
          rw [he]
          exact fun hh => h hh.symm
        rw [if_neg this, if_neg this]
      · rw [mapSet, if_neg he, mapGet, mapGet]
        by_cases he' : e.1 = k'
        · rw [if_pos he', if_pos he']
        · rw [if_neg he', if_neg he']
          exact ih

theorem mapGet_mapDelete_ne {v : Type} (m : List (String × v))
    (k k' : String) (h : k' ≠ k) :
    mapGet (mapDelete m k) k' = mapGet m k' := by
  induction m with
  | nil => rfl
  | cons e rest ih =>
      by_cases he : e.1 = k
      · have h1 : mapDelete (e :: rest) k = mapDelete rest k := by
          rw [mapDelete, List.filter_cons, mapDelete]
          simp [he]
        have h2 : ¬ e.1 = k' := by
          rw [he]
          exact fun hh => h hh.symm
        rw [h1, ih, mapGet, if_neg h2]
      · have h1 : mapDelete (e :: rest) k = e :: mapDelete rest k := by
          rw [mapDelete, List.filter_cons, mapDelete]
          simp [he]
        rw [h1, mapGet, mapGet]
        by_cases he' : e.1 = k'
        · rw [if_pos he', if_pos he']
        · rw [if_neg he', if_neg he', ih]

theorem mapSet_unique_value {v : Type} (m : List (String × v)) (k : String)
    (x : v) (h : (m.map Prod.fst).Nodup) :
    ∀ pr ∈ mapSet m k x, pr.1 = k → pr.2 = x := by
  induction m with
  | nil =>
      intro pr hpr _
      simp [mapSet] at hpr
      rw [hpr]
  | cons e rest ih =>
      rw [List.map_cons, List.nodup_cons] at h
      intro pr hpr hk
      by_cases he : e.1 = k
      · rw [mapSet, if_pos he] at hpr
        rcases List.mem_cons.mp hpr with hpr | hpr
        · rw [hpr]
        · exfalso
          apply h.1
          rw [he, ← hk]
          exact List.mem_map_of_mem Prod.fst hpr
      · rw [mapSet, if_neg he] at hpr
        rcases List.mem_cons.mp hpr with hpr | hpr
        · exfalso
          exact he (by rw [hpr] at hk; exact hk)
        · exact ih h.2 pr hpr hk

/-! ### Frames used by the concrete runs -/

/-- A well-formed `register` frame. -/
def regFrame (playerId sessionToken : String) : Json :=
  .obj [("type", .str "register"), ("playerId", .str playerId),
        ("sessionToken", .str sessionToken)]

/-- A `position` frame with an arbitrary JSON `position` value. -/
def posFrame (position : Json) : Json :=
  .obj [("type", .str "position"), ("position", position)]

/-- A well-formed `signal` frame. -/
def sigFrame (targetId : String) (payload : Json) : Json :=
  .obj [("type", .str "signal"), ("targetId", .str targetId),
        ("payload", payload)]

/-- A numeric `{x,y,z}` JSON vector. -/
def vecJson (x y z : ℚ) : Json :=
  .obj [("x", .num x), ("y", .num y), ("z", .num z)]

/-! ### Claim C1: duplicate register -/

/-- Counterexample to C1 as stated: same `playerId` registers twice (fresh
valid pending session each time). The later connection `c2` becomes the
sole registered connection, but the run's whole event log contains *no*
close at all — in particular the earlier socket `c1` never receives a
close with code 1001. -/
theorem register_duplicate_no_close_counterexample :
    ((runShard (fun q => q)
      [ .prepare "P" "t1" 0,
        .socketOpen "c1" 0,
        .socketData "c1" (.text (some (regFrame "P" "t1"))) 1,
        .prepare "P" "t2" 2,
        .socketOpen "c2" 2,
        .socketData "c2" (.text (some (regFrame "P" "t2"))) 3 ]
      emptyShard).2.filter
        (fun e => match e with | .close _ _ _ => true | _ => false)) = [] ∧
    ((runShard (fun q => q)
      [ .prepare "P" "t1" 0,
        .socketOpen "c1" 0,
        .socketData "c1" (.text (some (regFrame "P" "t1"))) 1,
        .prepare "P" "t2" 2,
        .socketOpen "c2" 2,
        .socketData "c2" (.text (some (regFrame "P" "t2"))) 3 ]
      emptyShard).1.connectionsByPlayer.map (fun pr => (pr.1, pr.2.id))) =
      [("P", "c2")] := by
  exact ⟨rfl, rfl⟩

/-- C1 (corrected): a second successful register for an already-registered
`playerId` (fresh valid pending session, anonymous socket) makes the later
connection the sole registered connection for that player and replies
`registered` to it — and that is the *only* event: the shard sends nothing
to the displaced earlier socket, in particular no close (1001 or
otherwise). -/
theorem register_duplicate_later_wins (st : ShardState)
    (connectionId tok pid : String) (msg : Json) (now : ℤ)
    (exp : PendingSession)
    (hanon : (mapGet st.anonymousConnections connectionId).isSome = true)
    (htok : jget msg "sessionToken" = some (.str tok))
    (hpid : jget msg "playerId" = some (.str pid))
    (hpend : mapGet st.pendingSessionsByToken tok = some exp)
    (hexp : exp.playerId = pid)
    (hkeys : (st.connectionsByPlayer.map Prod.fst).Nodup) :
    (∃ conn : PlayerConnection,
      mapGet (handleRegister connectionId msg now st).1.connectionsByPlayer
          pid = some conn ∧
      conn.id = connectionId ∧ conn.playerId = pid ∧
      (∀ pr ∈ (handleRegister connectionId msg now st).1.connectionsByPlayer,
        pr.1 = pid → pr.2 = conn)) ∧
    (handleRegister connectionId msg now st).2 =
      [.send connectionId (.registered pid)] := by
  cases ha : mapGet st.anonymousConnections connectionId with
  | none => rw [ha] at hanon; simp at hanon
  | some a =>
      subst hexp
      have hr : handleRegister connectionId msg now st =
          (let conn : PlayerConnection :=
            { id := connectionId, playerId := exp.playerId,
              sessionToken := tok, lastSeen := now,
              lastPositionAt := none, position := none }
          ({ st with
              pendingSessionsByToken :=
                mapDelete st.pendingSessionsByToken tok
              pendingSessionsByPlayer :=
                mapDelete st.pendingSessionsByPlayer exp.playerId
              anonymousConnections :=
                mapDelete st.anonymousConnections connectionId
              connectionsByPlayer :=
                mapSet st.connectionsByPlayer exp.playerId conn
              cleanupTimerArmed := true
              proximityTimerArmed := true },
            [.send connectionId (.registered exp.playerId)])) := by
        simp [handleRegister, ha, htok, hpend, hpid]
      rw [hr]
      refine ⟨⟨{ id := connectionId, playerId := exp.playerId,
                 sessionToken := tok, lastSeen := now,
                 lastPositionAt := none,
                 position := none }, ?_, rfl, rfl, ?_⟩, rfl⟩
      · exact mapGet_mapSet_self _ _ _
      · intro pr hpr hk
        exact mapSet_unique_value st.connectionsByPlayer exp.playerId _
          hkeys pr hpr hk

/-- The concrete duplicate-register state: `P` is registered through `c1`,
a fresh pending session `t2` exists, and `c2` is anonymous. -/
def dupRegState : ShardState :=
  { emptyShard with
      pendingSessionsByToken :=
        [("t2", { playerId := "P", sessionToken := "t2", createdAt := 2 })]
      pendingSessionsByPlayer := [("P", "t2")]
      connectionsByPlayer :=
        [("P", { id := "c1", playerId := "P", sessionToken := "t1",
                 lastSeen := 1, lastPositionAt := none,
                 position := none })]
      anonymousConnections := [("c2", { id := "c2", lastSeen := 2 })] }

/-- Witness for `register_duplicate_later_wins` at `dupRegState`: anonymous
`c2` registers as the already-registered `P`. -/
theorem register_duplicate_later_wins_witness :
    (∃ conn : PlayerConnection,
      mapGet (handleRegister "c2" (regFrame "P" "t2") 3
          dupRegState).1.connectionsByPlayer "P" = some conn ∧
      conn.id = "c2" ∧ conn.playerId = "P" ∧
      (∀ pr ∈ (handleRegister "c2" (regFrame "P" "t2") 3
          dupRegState).1.connectionsByPlayer, pr.1 = "P" → pr.2 = conn)) ∧
    (handleRegister "c2" (regFrame "P" "t2") 3 dupRegState).2 =
      [.send "c2" (.registered "P")] := by
  exact register_duplicate_later_wins dupRegState "c2" "t2" "P"
    (regFrame "P" "t2") 3
    { playerId := "P", sessionToken := "t2", createdAt := 2 }
    rfl rfl rfl rfl rfl (by decide)

/-! ### Claim C2: signal relay -/

/-- A state with `B` registered (socket `cB`) and an un-registered
(anonymous) socket `c9`. -/
def anonSigState : ShardState :=
  { emptyShard with
      connectionsByPlayer :=
        [("B", { id := "cB", playerId := "B", sessionToken := "tB",
                 lastSeen := 0, lastPositionAt := none, position := none })]
      anonymousConnections := [("c9", { id := "c9", lastSeen := 0 })] }

/-- Counterexample to C2 as stated: a `signal` frame from the un-registered
socket `c9` naming the registered target `B` produces *no* event at all —
the claimed `signal-delivery-failed` reply to the source never happens
(the handler returns before any send when the source is not registered). -/
theorem signal_unregistered_source_silent_counterexample :
    (handleSignalRelay "c9" (sigFrame "B" .null) anonSigState).2 = [] ∧
    (handleSignalRelay "c9" (sigFrame "B" .null) anonSigState).1 =
      anonSigState ∧
    (mapGet anonSigState.anonymousConnections "c9").isSome = true ∧
    (mapGet anonSigState.connectionsByPlayer "B").isSome = true := by
  exact ⟨rfl, rfl, rfl, rfl⟩

/-- C2 (corrected): `handleSignalRelay` never modifies shard state (so no
signal is ever queued); the payload is delivered (as
`signal { from, payload }`) iff both the source connection and the target
player are registered at dispatch time; `signal-delivery-failed` goes back
to the source only when the *source is registered* and the target is not;
a frame from an unregistered source is dropped silently, with no reply. -/
theorem signal_relay_amended (st : ShardState) (connectionId : String)
    (msg : Json) :
    ((handleSignalRelay connectionId msg st).1 = st) ∧
    (∀ tid : String, jget msg "targetId" = some (.str tid) →
      (((lookupConnection st connectionId).isSome = true ∧
        (mapGet st.connectionsByPlayer tid).isSome = true) ↔
        (∃ cid s pl, OutEvent.send cid (.signal s pl) ∈
          (handleSignalRelay connectionId msg st).2))) ∧
    (∀ (tid : String) (src : PlayerConnection),
      jget msg "targetId" = some (.str tid) →
      lookupConnection st connectionId = some src →
      mapGet st.connectionsByPlayer tid = none →
      (handleSignalRelay connectionId msg st).2 =
        [.send src.id (.signalDeliveryFailed (some (.str tid)))]) ∧
    (∀ (tid : String) (src tgt : PlayerConnection),
      jget msg "targetId" = some (.str tid) →
      lookupConnection st connectionId = some src →
      mapGet st.connectionsByPlayer tid = some tgt →
      (handleSignalRelay connectionId msg st).2 =
        [.send tgt.id (.signal src.playerId (jget msg "payload"))]) ∧
    (lookupConnection st connectionId = none →
      (handleSignalRelay connectionId msg st).2 = []) := by
  refine ⟨?_, ?_, ?_, ?_, ?_⟩
  · simp only [handleSignalRelay]
    split
    · rfl
    · split <;> rfl
  · intro tid htid
    constructor
    · rintro ⟨hsrc, htgt⟩
      cases hl : lookupConnection st connectionId with
      | none => rw [hl] at hsrc; simp at hsrc
      | some src =>
          cases hm : mapGet st.connectionsByPlayer tid with
          | none => rw [hm] at htgt; simp at htgt
          | some tgt =>
              refine ⟨tgt.id, src.playerId, jget msg "payload", ?_⟩
              simp [handleSignalRelay, hl, htid, hm]
    · rintro ⟨cid, s, pl, hmem⟩
      cases hl : lookupConnection st connectionId with
      | none => simp [handleSignalRelay, hl] at hmem
      | some src =>
          cases hm : mapGet st.connectionsByPlayer tid with
          | none => simp [handleSignalRelay, hl, htid, hm] at hmem
          | some tgt => exact ⟨rfl, rfl⟩
  · intro tid src htid hl hm
    simp [handleSignalRelay, hl, htid, hm]
  · intro tid src tgt htid hl hm
    simp [handleSignalRelay, hl, htid, hm]
  · intro hl
    simp [handleSignalRelay, hl]

/-- A state with `A` registered through socket `cA`. -/
def regAState : ShardState :=
  { emptyShard with
      connectionsByPlayer :=
        [("A", { id := "cA", playerId := "A", sessionToken := "tA",
                 lastSeen := 0, lastPositionAt := none, position := none })] }

/-- Witness for `signal_relay_amended`: registered `A` signals the missing
target `zzz` and gets `signal-delivery-failed` back. -/
theorem signal_relay_amended_witness :
    (handleSignalRelay "cA" (sigFrame "zzz" .null) regAState).2 =
      [.send "cA" (.signalDeliveryFailed (some (.str "zzz")))] := by
  have h := signal_relay_amended regAState "cA" (sigFrame "zzz" .null)
  exact h.2.2.1 "zzz"
    { id := "cA", playerId := "A", sessionToken := "tA", lastSeen := 0,
      lastPositionAt := none, position := none } rfl rfl rfl

/-! ### Claim C3: decoding fails closed -/

/-- A state with `A` registered (socket `cA`), no stored position, no
`lastPositionAt`. -/
def posMutState : ShardState :=
  { emptyShard with
      connectionsByPlayer :=
        [("A", { id := "cA", playerId := "A", sessionToken := "tA",
                 lastSeen := 0, lastPositionAt := none, position := none })] }

/-- Counterexample to C3 as stated: a `position` frame whose `position`
field is not a vector (`{x: "bogus"}`) passes the decoder (it has a string
`type`) and *does* mutate shard state: the connection's stored position
changes from `none` to the bogus value verbatim. -/
theorem position_shape_unvalidated_counterexample :
    decodeSocketMessage (posFrame (.obj [("x", .str "bogus")])) =
      some (posFrame (.obj [("x", .str "bogus")])) ∧
    (mapGet posMutState.connectionsByPlayer "A").map
      (fun c => c.position) = some none ∧
    (mapGet (handlePosition "cA" (posFrame (.obj [("x", .str "bogus")])) 5
        posMutState).connectionsByPlayer "A").map (fun c => c.position) =
      some (some (.obj [("x", .str "bogus")])) := by
  exact ⟨rfl, rfl, rfl⟩

/-- C3 (corrected): decoding fails closed at the *envelope* level — a
binary frame, invalid JSON, or a missing string `type` is answered with an
`error` frame and leaves the state untouched, as is an unknown `type`
string — but there is no per-variant shape validation: a `position` frame
stores its `position` value verbatim into the connection (see the
counterexample for a non-vector value). -/
theorem decode_fails_closed_amended :
    (∀ (connId : String) (now : ℤ) (st : ShardState),
      onSocketData connId .binary now st =
        (st, [.send connId (.errFrame "Messages must be JSON string")])) ∧
    (∀ (connId : String) (now : ℤ) (st : ShardState),
      onSocketData connId (.text none) now st =
        (st, [.send connId (.errFrame "Invalid message format")])) ∧
    (∀ (connId : String) (now : ℤ) (st : ShardState) (parsed : Json),
      decodeSocketMessage parsed = none →
      onSocketData connId (.text (some parsed)) now st =
        (st, [.send connId (.errFrame "Invalid message format")])) ∧
    (∀ (connId : String) (now : ℤ) (st : ShardState) (msg : Json)
      (s : String), jget msg "type" = some (.str s) →
      s ≠ "register" → s ≠ "heartbeat" → s ≠ "position" → s ≠ "signal" →
      handleSocketMessage connId msg now st =
        (st, sendToConnection st connId
          (.errFrame "Unknown message type"))) ∧
    (∀ (connId : String) (st : ShardState) (msg : Json) (now : ℤ)
      (conn : PlayerConnection),
      lookupConnection st connId = some conn →
      conn.lastPositionAt = none →
      handlePosition connId msg now st =
        { st with
            connectionsByPlayer :=
              updateConnById st.connectionsByPlayer connId
                (fun c => { c with
                    position := jget msg "position"
                    lastSeen := now
                    lastPositionAt := some now })
            proximityTimerArmed := true }) := by
  refine ⟨fun _ _ _ => rfl, fun _ _ _ => rfl, ?_, ?_, ?_⟩
  · intro connId now st parsed hdec
    simp [onSocketData, hdec]
  · intro connId now st msg s hty h1 h2 h3 h4
    simp [handleSocketMessage, hty, h1, h2, h3, h4]
  · intro connId st msg now conn hl hlp
    simp [handlePosition, hl, hlp]

/-- Witness for `decode_fails_closed_amended`: a JSON array (no string
`type`) is answered with the `error` frame, state untouched. -/
theorem decode_fails_closed_amended_witness :
    onSocketData "c1" (.text (some (.arr []))) 0 emptyShard =
      (emptyShard, [.send "c1" (.errFrame "Invalid message format")]) := by
  exact decode_fails_closed_amended.2.2.1 "c1" 0 emptyShard (.arr []) rfl

/-! ### Claim C6: diff suppression -/

/-- The suppression condition of `publishPeerDiff` (line 590): nothing
added, nothing removed, no distance changed beyond the epsilon. -/
def suppressCond (st : ShardState) (pid : String) (next : List String)
    (dists : List (String × ℚ)) : Bool :=
  let previousPeers := (mapGet st.peerViewByPlayer pid).getD []
  let previousDistances := (mapGet st.peerDistancesByPlayer pid).getD []
  let added := next.filter (fun peer => !(previousPeers.contains peer))
  let removed := previousPeers.filter (fun peer => !(next.contains peer))
  let distanceChanged := dists.any (fun pr =>
    match mapGet previousDistances pr.1 with
    | none => true
    | some prev => decide ((1 : ℚ) / 2 < |prev - pr.2|))
  added.length = 0 && removed.length = 0 && !distanceChanged

theorem publishPeerDiff_eq (st : ShardState) (pid : String)
    (conn : PlayerConnection) (next : List String)
    (dists : List (String × ℚ)) (poss : List (String × Json))
    (hconn : mapGet st.connectionsByPlayer pid = some conn) :
    publishPeerDiff st pid next dists poss =
      if suppressCond st pid next dists then (st, [])
      else
        ({ st with
            peerViewByPlayer := mapSet st.peerViewByPlayer pid next
            peerDistancesByPlayer :=
              mapSet st.peerDistancesByPlayer pid dists },
          [.send conn.id (.peers next
            (if 0 < (next.filter (fun peer =>
                !(((mapGet st.peerViewByPlayer pid).getD []).contains
                  peer))).length then
              some (next.filter (fun peer =>
                !(((mapGet st.peerViewByPlayer pid).getD []).contains peer)))
             else none)
            (if 0 < (((mapGet st.peerViewByPlayer pid).getD []).filter
                (fun peer => !(next.contains peer))).length then
              some (((mapGet st.peerViewByPlayer pid).getD []).filter
                (fun peer => !(next.contains peer)))
             else none)
            (if 0 < dists.length then some dists else none)
            (if 0 < poss.length then some poss else none)
            st.connectionsByPlayer.length)]) := by
  simp only [publishPeerDiff, hconn, suppressCond]

theorem suppressCond_true_iff (st : ShardState) (pid : String)
    (next : List String) (dists : List (String × ℚ))
    (hkeys : dists.map Prod.fst = next)
    (hprevkeys : ∀ q ∈ (mapGet st.peerViewByPlayer pid).getD [],
      (mapGet ((mapGet st.peerDistancesByPlayer pid).getD []) q).isSome =
        true) :
    suppressCond st pid next dists = true ↔
      ((∀ q, q ∈ next ↔ q ∈ (mapGet st.peerViewByPlayer pid).getD []) ∧
       (∀ (q : String) (d prev : ℚ), (q, d) ∈ dists →
         mapGet ((mapGet st.peerDistancesByPlayer pid).getD []) q =
           some prev → |prev - d| ≤ 1 / 2)) := by
  rw [suppressCond]
  simp only [Bool.and_eq_true, decide_eq_true_eq, List.length_eq_zero,
    List.filter_eq_nil_iff, Bool.not_eq_true', List.any_eq_false,
    Bool.not_eq_true]
  constructor
  · rintro ⟨⟨hadd, hrem⟩, hchg⟩
    constructor
    · intro q
      constructor
      · intro hq
        have := hadd q hq
        simpa [contains_eq_true_iff] using this
      · intro hq
        have := hrem q hq
        simpa [contains_eq_true_iff] using this
    · intro q d prev hqd hprev
      have := hchg (q, d) hqd
      rw [hprev] at this
      simp only [decide_eq_false_iff_not, not_lt] at this
      exact this
  · rintro ⟨hsets, hsmall⟩
    refine ⟨⟨?_, ?_⟩, ?_⟩
    · intro q hq
      have := (hsets q).mp hq
      simpa [contains_eq_true_iff] using this
    · intro q hq
      have := (hsets q).mpr hq
      simpa [contains_eq_true_iff] using this
    · intro pr hpr
      have hq : pr.1 ∈ next := by
        rw [← hkeys]
        exact List.mem_map_of_mem Prod.fst hpr
      have hqp := (hsets pr.1).mp hq
      have hsome := hprevkeys pr.1 hqp
      cases hprev : mapGet ((mapGet st.peerDistancesByPlayer pid).getD [])
          pr.1 with
      | none => rw [hprev] at hsome; simp at hsome
      | some prev =>
          have hle := hsmall pr.1 pr.2 prev hpr hprev
          simpa using hle

/-- C6 (confirmed): diff suppression in `publishPeerDiff`. When the
computed peer set equals the stored previous set and no peer present in
both has a distance differing from the previously-sent value by more than
0.5, no `peers` frame is emitted and the stored view and distance map are
left unchanged; otherwise exactly one `peers` frame is sent to the
observer's socket and the new set and distances are committed. (The
hypotheses record what `recalculateProximities` guarantees at every call
site: the distance map is keyed exactly by the computed peers, and the
stored distance map covers the stored view.) -/
theorem publish_peer_diff_suppression (st : ShardState) (pid : String)
    (conn : PlayerConnection) (next : List String)
    (dists : List (String × ℚ)) (poss : List (String × Json))
    (hconn : mapGet st.connectionsByPlayer pid = some conn)
    (hkeys : dists.map Prod.fst = next)
    (hprevkeys : ∀ q ∈ (mapGet st.peerViewByPlayer pid).getD [],
      (mapGet ((mapGet st.peerDistancesByPlayer pid).getD []) q).isSome =
        true) :
    (((∀ q, q ∈ next ↔ q ∈ (mapGet st.peerViewByPlayer pid).getD []) ∧
      (∀ (q : String) (d prev : ℚ), (q, d) ∈ dists →
        mapGet ((mapGet st.peerDistancesByPlayer pid).getD []) q =
          some prev → |prev - d| ≤ 1 / 2)) →
      publishPeerDiff st pid next dists poss = (st, [])) ∧
    ((¬ ((∀ q, q ∈ next ↔ q ∈ (mapGet st.peerViewByPlayer pid).getD []) ∧
      (∀ (q : String) (d prev : ℚ), (q, d) ∈ dists →
        mapGet ((mapGet st.peerDistancesByPlayer pid).getD []) q =
          some prev → |prev - d| ≤ 1 / 2))) →
      (publishPeerDiff st pid next dists poss).1.peerViewByPlayer =
        mapSet st.peerViewByPlayer pid next ∧
      (publishPeerDiff st pid next dists poss).1.peerDistancesByPlayer =
        mapSet st.peerDistancesByPlayer pid dists ∧
      ∃ a r dd pp, (publishPeerDiff st pid next dists poss).2 =
        [.send conn.id
          (.peers next a r dd pp st.connectionsByPlayer.length)]) := by
  constructor
  · intro hsup
    rw [publishPeerDiff_eq st pid conn next dists poss hconn,
      if_pos ((suppressCond_true_iff st pid next dists hkeys
        hprevkeys).mpr hsup)]
  · intro hsup
    have hfalse : suppressCond st pid next dists = false := by
      rw [Bool.eq_false_iff]
      intro htrue
      exact hsup ((suppressCond_true_iff st pid next dists hkeys
        hprevkeys).mp htrue)
    rw [publishPeerDiff_eq st pid conn next dists poss hconn, hfalse]
    simp only [Bool.false_eq_true, if_false]
    exact ⟨trivial, trivial, _, _, _, _, rfl⟩

/-- The concrete state for the suppression witness: observer `A` already
sees `B` at distance 10. -/
def suppressWitState : ShardState :=
  { emptyShard with
      connectionsByPlayer :=
        [("A", { id := "cA", playerId := "A", sessionToken := "tA",
                 lastSeen := 0, lastPositionAt := none,
                 position := none })]
      peerViewByPlayer := [("A", ["B"])]
      peerDistancesByPlayer := [("A", [("B", 10)])] }

/-- Witness for `publish_peer_diff_suppression`: the recomputed view is
again `B`, now at 101/10 (a change of 0.1 ≤ 0.5), so nothing is emitted
and nothing committed. -/
theorem publish_peer_diff_suppression_witness :
    publishPeerDiff suppressWitState "A" ["B"] [("B", 101/10)] [] =
      (suppressWitState, []) := by
  exact (publish_peer_diff_suppression suppressWitState "A"
    { id := "cA", playerId := "A", sessionToken := "tA", lastSeen := 0,
      lastPositionAt := none, position := none }
    ["B"] [("B", 101/10)] [] rfl rfl (by decide)).1
    (by
      refine ⟨fun q => Iff.rfl, ?_⟩
      intro q d prev hqd hprev
      simp only [List.mem_singleton, Prod.mk.injEq] at hqd
      obtain ⟨hq, hd⟩ := hqd
      subst hq
      subst hd
      have h10 : (some (10 : ℚ)) = some prev := hprev
      have hp : prev = 10 := (Option.some.inj h10).symm
      subst hp
      rw [abs_le]
      constructor <;> norm_num)

/-! ### Claim C7: peer-view invariant -/

/-- A player id that currently has a registered connection with a truthy
stored position. -/
def positionedPlayer (st : ShardState) (p : String) : Prop :=
  ∃ pr ∈ st.connectionsByPlayer, pr.2.playerId = p ∧
    (pr.2.position.map truthy).getD false = true

theorem peerScanStep_mem (sqrtFn : ℚ → ℚ) (player : PlayerConnection)
    (ppos : Json) (players : List PlayerConnection) :
    ∀ (acc : List String × List (String × ℚ) × List (String × Json))
      (p : String),
      p ∈ (players.foldl (peerScanStep sqrtFn player ppos) acc).1 →
      p ∈ acc.1 ∨ (p ≠ player.playerId ∧ ∃ other ∈ players,
        other.playerId = p ∧ (other.position.map truthy).getD false = true) := by
  induction players with
  | nil => intro acc p hp; exact Or.inl hp
  | cons other rest ih =>
      intro acc p hp
      rw [List.foldl_cons] at hp
      rcases ih (peerScanStep sqrtFn player ppos acc other) p hp with h | h
      · rw [peerScanStep] at h
        split at h
        · exact Or.inl h
        · rename_i heq
          split at h
          · rename_i opos hpos
            split at h
            · rename_i htr
              split at h
              · rename_i s hd
                split at h
                · rcases List.mem_append.mp h with h | h
                  · exact Or.inl h
                  · have hpq : p = other.playerId := by simpa using h
                    refine Or.inr ⟨?_, other, List.mem_cons_self _ _,
                      hpq.symm, ?_⟩
                    · rw [hpq]
                      exact heq
                    · rw [hpos]
                      simpa using htr
                · exact Or.inl h
              · exact Or.inl h
            · exact Or.inl h
          · exact Or.inl h
      · obtain ⟨hne, o2, ho2, rest'⟩ := h
        exact Or.inr ⟨hne, o2, List.mem_cons_of_mem _ ho2, rest'⟩

theorem mem_computePeers_fst (sqrtFn : ℚ → ℚ)
    (players : List PlayerConnection) (player : PlayerConnection)
    (p : String) (hp : p ∈ (computePeers sqrtFn players player).1) :
    p ≠ player.playerId ∧ ∃ other ∈ players, other.playerId = p ∧
      (other.position.map truthy).getD false = true := by
  rw [computePeers] at hp
  split at hp
  · rename_i ppos hpos
    split at hp
    · rcases peerScanStep_mem sqrtFn player ppos players ([], [], []) p hp
        with h | h
      · simp at h
      · exact h
    · simp at hp
  · simp at hp

theorem publishPeerDiff_frame_fields (st : ShardState) (pid : String)
    (next : List String) (dists : List (String × ℚ))
    (poss : List (String × Json)) :
    (publishPeerDiff st pid next dists poss).1.connectionsByPlayer =
      st.connectionsByPlayer ∧
    (publishPeerDiff st pid next dists poss).1.anonymousConnections =
      st.anonymousConnections := by
  cases h : mapGet st.connectionsByPlayer pid with
  | none => simp [publishPeerDiff, h]
  | some conn =>
      simp only [publishPeerDiff, h]
      constructor <;> (split <;> rfl)

theorem publishPeerDiff_views (st : ShardState) (pid : String)
    (next : List String) (dists : List (String × ℚ))
    (poss : List (String × Json)) (o : String) (view' : List String)
    (hv : mapGet (publishPeerDiff st pid next dists poss).1.peerViewByPlayer
      o = some view') :
    mapGet st.peerViewByPlayer o = some view' ∨ (o = pid ∧ view' = next) := by
  cases h : mapGet st.connectionsByPlayer pid with
  | none =>
      rw [publishPeerDiff, h] at hv
      exact Or.inl hv
  | some conn =>
      rw [publishPeerDiff_eq st pid conn next dists poss h] at hv
      split at hv
      · exact Or.inl hv
      · have hv' : mapGet (mapSet st.peerViewByPlayer pid next) o =
            some view' := hv
        by_cases ho : o = pid
        · subst ho
          rw [mapGet_mapSet_self st.peerViewByPlayer o next] at hv'
          exact Or.inr ⟨rfl, (Option.some.inj hv').symm⟩
        · rw [mapGet_mapSet_ne st.peerViewByPlayer pid o next ho] at hv'
          exact Or.inl hv'

theorem recalcFold_inv (sqrtFn : ℚ → ℚ) (st : ShardState)
    (players : List PlayerConnection)
    (hplayers : players = st.connectionsByPlayer.map (fun pr => pr.2)) :
    ∀ (l : List PlayerConnection) (acc : ShardState × List OutEvent),
    (∀ (o : String) (v : List String) (p : String),
      mapGet acc.1.peerViewByPlayer o = some v → p ∈ v →
      mapGet st.peerViewByPlayer o = some v ∨
        (p ≠ o ∧ positionedPlayer st p)) →
    (∀ (o : String) (v : List String) (p : String),
      mapGet ((l.foldl (fun acc player =>
          let c := computePeers sqrtFn players player
          let r := publishPeerDiff acc.1 player.playerId c.1 c.2.1 c.2.2
          (r.1, acc.2 ++ r.2)) acc).1.peerViewByPlayer) o = some v →
      p ∈ v →
      mapGet st.peerViewByPlayer o = some v ∨
        (p ≠ o ∧ positionedPlayer st p)) := by
  intro l
  induction l with
  | nil => intro acc hacc; exact hacc
  | cons player rest ih =>
      intro acc hacc
      rw [List.foldl_cons]
      apply ih
      intro o v p hv hp
      rcases publishPeerDiff_views acc.1 player.playerId
        (computePeers sqrtFn players player).1
        (computePeers sqrtFn players player).2.1
        (computePeers sqrtFn players player).2.2 o v hv with h | h
      · exact hacc o v p h hp
      · obtain ⟨ho, hveq⟩ := h
        subst ho
        subst hveq
        have hm := mem_computePeers_fst sqrtFn players player p hp
        obtain ⟨hne, other, hother, hpid, hpos⟩ := hm
        refine Or.inr ⟨hne, ?_⟩
        rw [hplayers] at hother
        rcases List.mem_map.mp hother with ⟨pr, hpr, hpr2⟩
        exact ⟨pr, hpr, by rw [hpr2]; exact hpid, by rw [hpr2]; exact hpos⟩

theorem recalc_commit_invariant (sqrtFn : ℚ → ℚ) (st : ShardState)
    (o : String) (view' : List String) (p : String)
    (hv : mapGet (recalculateProximities sqrtFn st).1.peerViewByPlayer o =
      some view') (hp : p ∈ view') :
    mapGet st.peerViewByPlayer o = some view' ∨
      (p ≠ o ∧ positionedPlayer st p) := by
  have key := recalcFold_inv sqrtFn st
    (st.connectionsByPlayer.map (fun pr => pr.2)) rfl
    (st.connectionsByPlayer.map (fun pr => pr.2)) (st, [])
    (fun _ _ _ hv2 _ => Or.inl hv2)
  exact key o view' p hv hp

theorem handleDisconnect_own_view (st : ShardState) (connId : String)
    (pr : String × PlayerConnection)
    (hanon : mapGet st.anonymousConnections connId = none)
    (hfind : st.connectionsByPlayer.find?
      (fun e => e.2.id == connId) = some pr) :
    mapGet (handleDisconnect connId st).1.peerViewByPlayer pr.1 = none ∧
    mapGet (handleDisconnect connId st).1.connectionsByPlayer pr.1 = none ∧
    (handleDisconnect connId st).2 =
      [.close connId 1001 "Connection closed"] := by
  simp only [handleDisconnect, hanon, hfind, Option.isSome_none,
    Bool.false_eq_true, if_false]
  refine ⟨?_, ?_, ?_⟩
  · exact mapGet_mapDelete_self _ _
  · first
    | trivial
    | exact mapGet_mapDelete_self _ _
  · trivial

/-- Counterexample to C7 as stated: `A` and `B` register with positions 10
apart; a proximity pass commits `B` into `A`'s peer view; then `B`'s
socket closes. Immediately after the disconnect (before the next
recomputation pass runs) `A`'s stored peer view still contains `B`, while
`B` no longer has a live registered connection — the claimed invariant
fails between the disconnect and the next pass. -/
theorem peer_view_stale_after_disconnect_counterexample :
    mapGet (runShard (fun _ => 10)
      [ .prepare "A" "tokA" 0,
        .prepare "B" "tokB" 0,
        .socketOpen "c1" 0,
        .socketData "c1" (.text (some (regFrame "A" "tokA"))) 1,
        .socketOpen "c2" 1,
        .socketData "c2" (.text (some (regFrame "B" "tokB"))) 2,
        .socketData "c1" (.text (some (posFrame (vecJson 0 0 0)))) 3,
        .socketData "c2" (.text (some (posFrame (vecJson 10 0 0)))) 4,
        .proximityTimerFire,
        .socketClosed "c2" ]
      emptyShard).1.peerViewByPlayer "A" = some ["B"] ∧
    (mapGet (runShard (fun _ => 10)
      [ .prepare "A" "tokA" 0,
        .prepare "B" "tokB" 0,
        .socketOpen "c1" 0,
        .socketData "c1" (.text (some (regFrame "A" "tokA"))) 1,
        .socketOpen "c2" 1,
        .socketData "c2" (.text (some (regFrame "B" "tokB"))) 2,
        .socketData "c1" (.text (some (posFrame (vecJson 0 0 0)))) 3,
        .socketData "c2" (.text (some (posFrame (vecJson 10 0 0)))) 4,
        .proximityTimerFire,
        .socketClosed "c2" ]
      emptyShard).1.connectionsByPlayer "B").isNone = true := by
  constructor
  · decide
  · decide

/-- C7 (corrected): the peer-view invariant holds only as of the most
recent recomputation commit. (1) After a `recalculateProximities` pass,
every stored view is either unchanged from before the pass, or was
committed by the pass — and then contains neither the observer itself nor
any player who was not registered-with-truthy-position when the pass ran.
(2) `handleDisconnect` deletes only the departing player's own view (and
registry entry); other observers' stored views are untouched, so a
disconnected player can remain in them until the next pass (see the
counterexample). -/
theorem peer_view_commit_invariant :
    (∀ (sqrtFn : ℚ → ℚ) (st : ShardState) (o : String)
      (view' : List String) (p : String),
      mapGet (recalculateProximities sqrtFn st).1.peerViewByPlayer o =
        some view' → p ∈ view' →
      mapGet st.peerViewByPlayer o = some view' ∨
        (p ≠ o ∧ positionedPlayer st p)) ∧
    (∀ (st : ShardState) (connId : String)
      (pr : String × PlayerConnection),
      mapGet st.anonymousConnections connId = none →
      st.connectionsByPlayer.find? (fun e => e.2.id == connId) = some pr →
      mapGet (handleDisconnect connId st).1.peerViewByPlayer pr.1 = none ∧
      mapGet (handleDisconnect connId st).1.connectionsByPlayer pr.1 =
        none) := by
  constructor
  · intro sqrtFn st o view' p hv hp
    exact recalc_commit_invariant sqrtFn st o view' p hv hp
  · intro st connId pr hanon hfind
    have h := handleDisconnect_own_view st connId pr hanon hfind
    exact ⟨h.1, h.2.1⟩

/-- Witness for `peer_view_commit_invariant`: disconnecting `B`'s socket
`cB` in `anonSigState` deletes `B`'s own view and registry entry. -/
theorem peer_view_commit_invariant_witness :
    mapGet (handleDisconnect "cB" anonSigState).1.peerViewByPlayer "B" =
      none ∧
    mapGet (handleDisconnect "cB" anonSigState).1.connectionsByPlayer "B" =
      none := by
  exact peer_view_commit_invariant.2 anonSigState "cB"
    ("B", { id := "cB", playerId := "B", sessionToken := "tB",
            lastSeen := 0, lastPositionAt := none, position := none })
    rfl rfl

/-! ### C10: what the shard timers may and may not touch -/

theorem pruneExpiredSessions_anon (t : ℤ) (st : ShardState) :
    (pruneExpiredSessions t st).anonymousConnections =
      st.anonymousConnections := by
  unfold pruneExpiredSessions
  refine foldl_preserve _
    (fun acc => acc.anonymousConnections = st.anonymousConnections)
    ?_ _ st rfl
  intro s pr h
  dsimp only
  split
  · split
    · split
      · exact h
      · exact h
    · exact h
  · exact h

theorem handlePrepare_anon (p tok : String) (t : ℤ) (st : ShardState) :
    (handlePrepare p tok t st).anonymousConnections =
      st.anonymousConnections := by
  have h1 := pruneExpiredSessions_anon t st
  unfold handlePrepare
  dsimp only
  split
  · split
    · exact h1
    · exact h1
  · exact h1

theorem handleHeartbeat_anon (c : String) (t : ℤ) (st : ShardState) :
    (handleHeartbeat c t st).anonymousConnections =
      st.anonymousConnections := by
  unfold handleHeartbeat
  split
  · rfl
  · rfl

theorem handlePosition_anon (c : String) (msg : Json) (t : ℤ)
    (st : ShardState) :
    (handlePosition c msg t st).anonymousConnections =
      st.anonymousConnections := by
  unfold handlePosition
  split
  · rfl
  · dsimp only
    split
    · rfl
    · rfl

theorem handleSignalRelay_state (c : String) (msg : Json)
    (st : ShardState) : (handleSignalRelay c msg st).1 = st := by
  unfold handleSignalRelay
  split
  · rfl
  · split <;> first
      | rfl
      | (dsimp only; split <;> rfl)

theorem handleRegister_anon (c : String) (msg : Json) (t : ℤ)
    (st : ShardState) :
    (handleRegister c msg t st).1.anonymousConnections =
      st.anonymousConnections ∨
    (handleRegister c msg t st).1.anonymousConnections =
      mapDelete st.anonymousConnections c := by
  unfold handleRegister registerRejected
  split
  · exact Or.inl rfl
  · split
    · split
      · split
        · split
          · exact Or.inr rfl
          · exact Or.inr rfl
        · exact Or.inr rfl
      · exact Or.inr rfl
    · exact Or.inr rfl

theorem handleSocketMessage_anon (c : String) (msg : Json) (t : ℤ)
    (st : ShardState) :
    (handleSocketMessage c msg t st).1.anonymousConnections =
      st.anonymousConnections ∨
    (jget msg "type" = some (Json.str "register") ∧
      (handleSocketMessage c msg t st).1.anonymousConnections =
        mapDelete st.anonymousConnections c) := by
  unfold handleSocketMessage
  split
  · rename_i heq
    rcases handleRegister_anon c msg t st with h | h
    · exact Or.inl h
    · exact Or.inr ⟨heq, h⟩
  · exact Or.inl (handleHeartbeat_anon c t st)
  · exact Or.inl (handlePosition_anon c msg t st)
  · exact Or.inl
      (congrArg ShardState.anonymousConnections
        (handleSignalRelay_state c msg st))
  · exact Or.inl rfl

theorem onSocketData_anon (c : String) (d : SocketData) (t : ℤ)
    (st : ShardState) :
    (onSocketData c d t st).1.anonymousConnections =
      st.anonymousConnections ∨
    (∃ parsed msg, d = SocketData.text (some parsed) ∧
      decodeSocketMessage parsed = some msg ∧
      jget msg "type" = some (Json.str "register") ∧
      (onSocketData c d t st).1.anonymousConnections =
        mapDelete st.anonymousConnections c) := by
  cases d with
  | binary => exact Or.inl rfl
  | text parsed =>
      cases parsed with
      | none => exact Or.inl rfl
      | some p =>
          cases hd : decodeSocketMessage p with
          | none =>
              refine Or.inl ?_
              simp only [onSocketData, Option.some_bind, hd]
          | some msg =>
              have hred : (onSocketData c (SocketData.text (some p)) t
                  st).1.anonymousConnections =
                  (handleSocketMessage c msg t st).1.anonymousConnections :=
                by simp only [onSocketData, Option.some_bind, hd]
              rcases handleSocketMessage_anon c msg t st with h | ⟨hty, h⟩
              · exact Or.inl (hred.trans h)
              · exact Or.inr ⟨p, msg, rfl, hd, hty, hred.trans h⟩

theorem publishPeerDiff_events (st : ShardState) (pid : String)
    (next : List String) (dists : List (String × ℚ))
    (poss : List (String × Json)) (ev : OutEvent)
    (hev : ev ∈ (publishPeerDiff st pid next dists poss).2) :
    ∃ c fr, ev = OutEvent.send c fr := by
  unfold publishPeerDiff at hev
  split at hev
  · cases hev
  · dsimp only at hev
    split at hev
    · cases hev
    · exact ⟨_, _, List.mem_singleton.mp hev⟩

theorem recalcFold_anon (sqrtFn : ℚ → ℚ) (st : ShardState)
    (players : List PlayerConnection) :
    ∀ (l : List PlayerConnection) (acc : ShardState × List OutEvent),
    acc.1.anonymousConnections = st.anonymousConnections →
    (∀ ev, ev ∈ acc.2 → ∃ c fr, ev = OutEvent.send c fr) →
    ((l.foldl (fun acc player =>
        let c := computePeers sqrtFn players player
        let r := publishPeerDiff acc.1 player.playerId c.1 c.2.1 c.2.2
        (r.1, acc.2 ++ r.2)) acc).1.anonymousConnections =
      st.anonymousConnections ∧
    ∀ ev, ev ∈ (l.foldl (fun acc player =>
        let c := computePeers sqrtFn players player
        let r := publishPeerDiff acc.1 player.playerId c.1 c.2.1 c.2.2
        (r.1, acc.2 ++ r.2)) acc).2 → ∃ c fr, ev = OutEvent.send c fr) := by
  intro l
  induction l with
  | nil => intro acc h1 h2; exact ⟨h1, h2⟩
  | cons player rest ih =>
      intro acc h1 h2
      rw [List.foldl_cons]
      refine ih _ ?_ ?_
      · exact ((publishPeerDiff_frame_fields acc.1 player.playerId
          (computePeers sqrtFn players player).1
          (computePeers sqrtFn players player).2.1
          (computePeers sqrtFn players player).2.2).2).trans h1
      · intro ev hev
        have hev' : ev ∈ acc.2 ++ (publishPeerDiff acc.1 player.playerId
            (computePeers sqrtFn players player).1
            (computePeers sqrtFn players player).2.1
            (computePeers sqrtFn players player).2.2).2 := hev
        rcases List.mem_append.mp hev' with h | h
        · exact h2 ev h
        · exact publishPeerDiff_events acc.1 player.playerId _ _ _ ev h

theorem recalculateProximities_anon_sends (sqrtFn : ℚ → ℚ)
    (st : ShardState) :
    (recalculateProximities sqrtFn st).1.anonymousConnections =
      st.anonymousConnections ∧
    ∀ ev, ev ∈ (recalculateProximities sqrtFn st).2 →
      ∃ c fr, ev = OutEvent.send c fr := by
  have key := recalcFold_anon sqrtFn st
    (st.connectionsByPlayer.map (fun pr => pr.2))
    (st.connectionsByPlayer.map (fun pr => pr.2)) (st, []) rfl
    (fun ev h => absurd h (List.not_mem_nil ev))
  exact key

theorem proximityFire_anon_sends (sqrtFn : ℚ → ℚ) (st : ShardState) :
    (proximityFire sqrtFn st).1.anonymousConnections =
      st.anonymousConnections ∧
    ∀ ev, ev ∈ (proximityFire sqrtFn st).2 →
      ∃ c fr, ev = OutEvent.send c fr := by
  have h := recalculateProximities_anon_sends sqrtFn
    { st with proximityTimerArmed := false }
  exact h

theorem handleDisconnect_anon_miss (cid : String) (s : ShardState)
    (hmiss : mapGet s.anonymousConnections cid = none) :
    (handleDisconnect cid s).1.anonymousConnections =
      s.anonymousConnections ∧
    ((handleDisconnect cid s).2 = [] ∨
      (handleDisconnect cid s).2 =
        [OutEvent.close cid 1001 "Connection closed"]) := by
  simp only [handleDisconnect, hmiss, Option.isSome_none,
    Bool.false_eq_true, if_false]
  split
  · exact ⟨rfl, Or.inl rfl⟩
  · exact ⟨rfl, Or.inr rfl⟩

theorem pruneFold_inv (now : ℤ) (st : ShardState) :
    ∀ (l : List (String × PlayerConnection))
      (acc : ShardState × List OutEvent),
    (∀ pr, pr ∈ l → pr ∈ st.connectionsByPlayer) →
    (∀ pr, pr ∈ st.connectionsByPlayer →
      mapGet st.anonymousConnections pr.2.id = none) →
    acc.1.anonymousConnections = st.anonymousConnections →
    (∀ ev, ev ∈ acc.2 → ∃ pr, pr ∈ st.connectionsByPlayer ∧
      pr.2.lastSeen < now - 30000 ∧
      ev = OutEvent.close pr.2.id 1001 "Connection closed") →
    ((l.foldl (fun acc pr =>
        if pr.2.lastSeen < now - 30000 then
          let r := handleDisconnect pr.2.id acc.1
          (r.1, acc.2 ++ r.2)
        else acc) acc).1.anonymousConnections =
        st.anonymousConnections ∧
      ∀ ev, ev ∈ (l.foldl (fun acc pr =>
        if pr.2.lastSeen < now - 30000 then
          let r := handleDisconnect pr.2.id acc.1
          (r.1, acc.2 ++ r.2)
        else acc) acc).2 → ∃ pr, pr ∈ st.connectionsByPlayer ∧
        pr.2.lastSeen < now - 30000 ∧
        ev = OutEvent.close pr.2.id 1001 "Connection closed") := by
  intro l
  induction l with
  | nil => intro acc _ _ hanon hev; exact ⟨hanon, hev⟩
  | cons pr rest ih =>
      intro acc hmem hdisj hanon hev
      rw [List.foldl_cons]
      have hprst : pr ∈ st.connectionsByPlayer :=
        hmem pr (List.mem_cons_self pr rest)
      have hmiss : mapGet acc.1.anonymousConnections pr.2.id = none := by
        rw [hanon]; exact hdisj pr hprst
      refine ih _ (fun q hq => hmem q (List.mem_cons_of_mem pr hq))
        hdisj ?_ ?_
      · dsimp only
        by_cases hstale : pr.2.lastSeen < now - 30000
        · rw [if_pos hstale]
          rw [(handleDisconnect_anon_miss pr.2.id acc.1 hmiss).1]
          exact hanon
        · rw [if_neg hstale]
          exact hanon
      · dsimp only
        by_cases hstale : pr.2.lastSeen < now - 30000
        · rw [if_pos hstale]
          intro ev hevm
          rcases List.mem_append.mp hevm with h | h
          · exact hev ev h
          · rcases (handleDisconnect_anon_miss pr.2.id acc.1 hmiss).2
              with hnil | hone
            · rw [hnil] at h; cases h
            · rw [hone] at h
              exact ⟨pr, hprst, hstale, List.mem_singleton.mp h⟩
        · rw [if_neg hstale]
          exact hev

theorem cleanupFire_anon_scope (now : ℤ) (st : ShardState)
    (hdisj : ∀ pr, pr ∈ st.connectionsByPlayer →
      mapGet st.anonymousConnections pr.2.id = none) :
    (cleanupFire now st).1.anonymousConnections =
      st.anonymousConnections ∧
    ∀ ev, ev ∈ (cleanupFire now st).2 →
      ∃ pr, pr ∈ st.connectionsByPlayer ∧
        pr.2.lastSeen < now - 30000 ∧
        ev = OutEvent.close pr.2.id 1001 "Connection closed" := by
  have key := pruneFold_inv now st st.connectionsByPlayer
    ({ st with cleanupTimerArmed := false }, [])
    (fun q hq => hq) hdisj rfl
    (fun ev h => absurd h (List.not_mem_nil ev))
  unfold cleanupFire pruneInactiveConnections
  dsimp only
  split
  · exact ⟨key.1, key.2⟩
  · exact ⟨key.1, key.2⟩

theorem shardStep_anon_removal (sqrtFn : ℚ → ℚ) (st : ShardState)
    (op : ShardOp) (a : String) (x : AnonymousConnection)
    (hdisj : ∀ pr, pr ∈ st.connectionsByPlayer →
      mapGet st.anonymousConnections pr.2.id = none)
    (hpre : mapGet st.anonymousConnections a = some x)
    (hpost : mapGet (shardStep sqrtFn st op).1.anonymousConnections a =
      none) :
    (∃ parsed msg t,
      op = ShardOp.socketData a (SocketData.text (some parsed)) t ∧
      decodeSocketMessage parsed = some msg ∧
      jget msg "type" = some (Json.str "register")) ∨
    op = ShardOp.socketClosed a := by
  cases op with
  | socketOpen c t =>
      exfalso
      have hpost' : mapGet (mapSet st.anonymousConnections c
          { id := c, lastSeen := t }) a = none := hpost
      by_cases hac : a = c
      · subst hac
        rw [mapGet_mapSet_self] at hpost'
        exact Option.noConfusion hpost'
      · rw [mapGet_mapSet_ne _ _ _ _ hac, hpre] at hpost'
        exact Option.noConfusion hpost'
  | socketData c d t =>
      rcases onSocketData_anon c d t st with h | ⟨parsed, msg, hd, hdec, hty, h⟩
      · exfalso
        have hpost' : mapGet
            (onSocketData c d t st).1.anonymousConnections a = none := hpost
        rw [h, hpre] at hpost'
        exact Option.noConfusion hpost'
      · have hpost' : mapGet
            (onSocketData c d t st).1.anonymousConnections a = none := hpost
        rw [h] at hpost'
        by_cases hac : a = c
        · subst hac
          exact Or.inl ⟨parsed, msg, t, by rw [hd], hdec, hty⟩
        · exfalso
          rw [mapGet_mapDelete_ne _ _ _ hac, hpre] at hpost'
          exact Option.noConfusion hpost'
  | socketClosed c =>
      have hpost' : mapGet
          (handleDisconnect c st).1.anonymousConnections a = none := hpost
      by_cases hc : (mapGet st.anonymousConnections c).isSome = true
      · have heq : (handleDisconnect c st).1.anonymousConnections =
            mapDelete st.anonymousConnections c := by
          unfold handleDisconnect
          rw [if_pos hc]
        rw [heq] at hpost'
        by_cases hac : a = c
        · subst hac; exact Or.inr rfl
        · exfalso
          rw [mapGet_mapDelete_ne _ _ _ hac, hpre] at hpost'
          exact Option.noConfusion hpost'
      · exfalso
        have heq : (handleDisconnect c st).1.anonymousConnections =
            st.anonymousConnections := by
          unfold handleDisconnect
          rw [if_neg hc]
          split
          · rfl
          · rfl
        rw [heq, hpre] at hpost'
        exact Option.noConfusion hpost'
  | prepare p tok t =>
      exfalso
      have hpost' : mapGet
          (handlePrepare p tok t st).anonymousConnections a = none := hpost
      rw [handlePrepare_anon, hpre] at hpost'
      exact Option.noConfusion hpost'
  | cleanupTimerFire t =>
      exfalso
      have hpost' : mapGet
          (cleanupFire t st).1.anonymousConnections a = none := hpost
      rw [(cleanupFire_anon_scope t st hdisj).1, hpre] at hpost'
      exact Option.noConfusion hpost'
  | proximityTimerFire =>
      exfalso
      have hpost' : mapGet
          (proximityFire sqrtFn st).1.anonymousConnections a = none := hpost
      rw [(proximityFire_anon_sends sqrtFn st).1, hpre] at hpost'
      exact Option.noConfusion hpost'

def c10State : ShardState :=
  { pendingSessionsByToken := []
    pendingSessionsByPlayer := []
    connectionsByPlayer := [("A",
      { id := "c1", playerId := "A", sessionToken := "tA",
        lastSeen := 0, lastPositionAt := none, position := none })]
    anonymousConnections := [("z", { id := "z", lastSeen := 0 })]
    peerViewByPlayer := []
    peerDistancesByPlayer := []
    proximityTimerArmed := false
    cleanupTimerArmed := true }

/-- C10 (confirmed): shard timers never touch anonymous connections.
When registered socket ids are disjoint from the anonymous map (as in
every real shard, ids being fresh per socket): (1) the cleanup timer
leaves `anonymousConnections` unchanged and every close it emits is a
1001 close of a registered connection whose `lastSeen` is more than
`HEARTBEAT_TIMEOUT_MS = 30000` old; (2) the proximity timer also leaves
`anonymousConnections` unchanged and emits only `send` events, never a
close; (3) an anonymous entry disappears from the map only through a
`register` message arriving on that very socket (promotion, or the
4001-rejection path) or through that socket's own close/error event. -/
theorem cleanup_timer_scope :
    (∀ (now : ℤ) (st : ShardState),
      (∀ pr, pr ∈ st.connectionsByPlayer →
        mapGet st.anonymousConnections pr.2.id = none) →
      (cleanupFire now st).1.anonymousConnections =
        st.anonymousConnections ∧
      ∀ ev, ev ∈ (cleanupFire now st).2 →
        ∃ pr, pr ∈ st.connectionsByPlayer ∧
          pr.2.lastSeen < now - 30000 ∧
          ev = OutEvent.close pr.2.id 1001 "Connection closed") ∧
    (∀ (sqrtFn : ℚ → ℚ) (st : ShardState),
      (proximityFire sqrtFn st).1.anonymousConnections =
        st.anonymousConnections ∧
      ∀ ev, ev ∈ (proximityFire sqrtFn st).2 →
        ∃ c fr, ev = OutEvent.send c fr) ∧
    (∀ (sqrtFn : ℚ → ℚ) (st : ShardState) (op : ShardOp) (a : String)
      (x : AnonymousConnection),
      (∀ pr, pr ∈ st.connectionsByPlayer →
        mapGet st.anonymousConnections pr.2.id = none) →
      mapGet st.anonymousConnections a = some x →
      mapGet (shardStep sqrtFn st op).1.anonymousConnections a = none →
      (∃ parsed msg t,
        op = ShardOp.socketData a (SocketData.text (some parsed)) t ∧
        decodeSocketMessage parsed = some msg ∧
        jget msg "type" = some (Json.str "register")) ∨
      op = ShardOp.socketClosed a) := by
  refine ⟨?_, ?_, ?_⟩
  · intro now st hdisj
    exact cleanupFire_anon_scope now st hdisj
  · intro sqrtFn st
    exact proximityFire_anon_sends sqrtFn st
  · intro sqrtFn st op a x hdisj hpre hpost
    exact shardStep_anon_removal sqrtFn st op a x hdisj hpre hpost

/-- Witness for `cleanup_timer_scope` at a concrete state (a stale
registered connection `c1` and an anonymous socket `z`): the cleanup pass
keeps the anonymous map, and the only step that removes `z` here is its
own close. -/
theorem cleanup_timer_scope_witness :
    ((cleanupFire 40000 c10State).1.anonymousConnections =
        c10State.anonymousConnections ∧
      ∀ ev, ev ∈ (cleanupFire 40000 c10State).2 →
        ∃ pr, pr ∈ c10State.connectionsByPlayer ∧
          pr.2.lastSeen < 40000 - 30000 ∧
          ev = OutEvent.close pr.2.id 1001 "Connection closed") ∧
    ((∃ parsed msg t, ShardOp.socketClosed "z" =
        ShardOp.socketData "z" (SocketData.text (some parsed)) t ∧
        decodeSocketMessage parsed = some msg ∧
        jget msg "type" = some (Json.str "register")) ∨
      ShardOp.socketClosed "z" = ShardOp.socketClosed "z") := by
  have hdisj : ∀ pr, pr ∈ c10State.connectionsByPlayer →
      mapGet c10State.anonymousConnections pr.2.id = none := by
    intro pr hpr
    have h := List.mem_singleton.mp hpr
    subst h
    rfl
  exact ⟨cleanup_timer_scope.1 40000 c10State hdisj,
    cleanup_timer_scope.2.2 (fun _ => 0) c10State
      (ShardOp.socketClosed "z") "z" { id := "z", lastSeen := 0 }
      hdisj rfl rfl⟩

/-! ### C9: ICE-server resolution (`src/src/config.ts`, `src/src/turn.ts`)
and what the admission handler actually returns -/

/-- The whitespace set of JS `String.prototype.trim` (core subset). -/
def wsChar (c : Char) : Bool :=
  c == ' ' || c == '\t' || c == '\n' || c == '\r'

/-- JS `s.trim()` as a pure list-of-characters function. -/
def jsTrim (s : String) : String :=
  ⟨((s.data.dropWhile wsChar).reverse.dropWhile wsChar).reverse⟩

/-- The environment fields read by the ICE-server resolution chain
(`VoiceChatEnv`, config.ts lines 20-28; a missing binding is `none`). -/
structure VoiceChatEnv where
  ICE_SERVERS_JSON : Option String
  TURN_TOKEN_ID : Option String
  TURN_API_TOKEN : Option String
  TURN_CACHE_TTL_SECONDS : Option String

/-- The single built-in STUN entry of `DEFAULT_ICE_SERVERS`
(config.ts lines 75-79), as the JS object value it is. -/
def defaultStunServer : Json :=
  .obj [("urls", .arr [.str "stun:stun.cloudflare.com:3478",
    .str "stun:stun.l.google.com:19302"])]

def DEFAULT_ICE_SERVERS : List Json := [defaultStunServer]

/-- `urls` is a string or an array of strings
(the `urlsValid` test of `isIceServerLike`, config.ts lines 87-89). -/
def urlsValid : Option Json → Bool
  | some (.str _) => true
  | some (.arr entries) => entries.all (fun e =>
      match e with
      | .str _ => true
      | _ => false)
  | _ => false

/-- `username`/`credential` may be absent, `null`, or a string
(config.ts lines 95-101; `none` is JS `undefined`). -/
def optStringOk : Option Json → Bool
  | none => true
  | some .null => true
  | some (.str _) => true
  | _ => false

/-- `isIceServerLike` (config.ts lines 81-104). JS `typeof` is `"object"`
for objects, arrays and `null`; `value == null` rejects `null` first, and
property access on an array yields `undefined`, failing `urlsValid`. -/
def isIceServerLike (value : Json) : Bool :=
  match value with
  | .null => false
  | .bool _ => false
  | .num _ => false
  | .str _ => false
  | _ =>
      if !urlsValid (jget value "urls") then false
      else if !optStringOk (jget value "username") then false
      else if !optStringOk (jget value "credential") then false
      else true

/-- `getIceServers` (config.ts lines 106-126). `jsonParse` embeds the
platform `JSON.parse` (`none` = throw, absorbed by the `try`). -/
def getIceServers (jsonParse : String → Option Json)
    (env : VoiceChatEnv) : List Json :=
  match env.ICE_SERVERS_JSON with
  | some raw =>
      if (jsTrim raw).length > 0 then
        match jsonParse raw with
        | some (.arr parsed) =>
            let validated := parsed.filter isIceServerLike
            if validated.length > 0 then validated
            else DEFAULT_ICE_SERVERS
        | _ => DEFAULT_ICE_SERVERS
      else DEFAULT_ICE_SERVERS
  | none => DEFAULT_ICE_SERVERS

/-- Line 271 of the worker's `handleJoin`: the admission response's
`iceServers` field is `getIceServers(env)` — `resolveTurnIceServers`
is not consulted. -/
def handleJoinIceServers (jsonParse : String → Option Json)
    (env : VoiceChatEnv) : List Json :=
  getIceServers jsonParse env

/-- The configured-token-pair guard of `resolveTurnIceServers`
(turn.ts lines 49-54): both trimmed tokens non-empty. -/
def turnConfigured (env : VoiceChatEnv) : Bool :=
  match env.TURN_TOKEN_ID, env.TURN_API_TOKEN with
  | some tid, some tok =>
      decide (jsTrim tid ≠ "") && decide (jsTrim tok ≠ "")
  | _, _ => false

/-- The pure validation of a TURN credentials response
(turn.ts lines 109-119): `iceServers` must be an array whose
`isIceServerLike` filtrate is non-empty. -/
def validateTurnPayload (payload : Json) : Option (List Json) :=
  match jget payload "iceServers" with
  | some (.arr arr) =>
      let validated := arr.filter isIceServerLike
      if validated.length = 0 then none else some validated
  | _ => none

/-- `clampTtl` (turn.ts lines 13-19); `none` stands for a `NaN` or
non-finite input millisecond count. -/
def clampTtl : Option ℚ → ℚ
  | none => 60000
  | some ms => min (max ms 5000) 3600000

/-- The `envTtlSeconds` fallback tail of `computeCacheMs`
(turn.ts lines 39-43); `none` = absent or unparseable. -/
def cacheMsTail2 (envTtlSeconds : Option ℤ) : ℚ :=
  match envTtlSeconds with
  | some n => if n ≠ 0 ∧ 0 < n then clampTtl (some ((n : ℚ) * 1000))
      else 60000
  | none => 60000

/-- The `expiresAt` middle branch of `computeCacheMs` (turn.ts lines
32-37); `none` = absent, falsy, or `Date.parse` returned `NaN`. -/
def cacheMsTail1 (expiresAtMs : Option ℤ) (envTtlSeconds : Option ℤ)
    (now : ℤ) : ℚ :=
  match expiresAtMs with
  | some ms => clampTtl (some ((ms : ℚ) - (now : ℚ) - 5000))
  | none => cacheMsTail2 envTtlSeconds

/-- `computeCacheMs` (turn.ts lines 23-44); the `ttl` field is a JSON
number, so finite — `payload.ttl && payload.ttl > 0` is the two-step
truthiness-then-positivity test. -/
def computeCacheMs (ttl : Option ℚ) (expiresAtMs : Option ℤ)
    (envTtlSeconds : Option ℤ) (now : ℤ) : ℚ :=
  match ttl with
  | some t =>
      if t ≠ 0 ∧ 0 < t then clampTtl (some (t * 1000))
      else cacheMsTail1 expiresAtMs envTtlSeconds now
  | none => cacheMsTail1 expiresAtMs envTtlSeconds now

/-- The three-stage resolution chain AS THE SPEC DESCRIBES IT (built from
the spec's words, for the refinement comparison only — not from the
code): TURN credentials when the token pair is configured and the fetch
yields a non-empty validated array, else the static list, else the
default. `turnResult` embeds the fetch outcome (`none` = network or
HTTP failure). -/
def specRelayChain (jsonParse : String → Option Json)
    (turnResult : Option Json) (env : VoiceChatEnv) : List Json :=
  if turnConfigured env then
    match turnResult with
    | some payload =>
        match validateTurnPayload payload with
        | some validated => validated
        | none => getIceServers jsonParse env
    | none => getIceServers jsonParse env
  else getIceServers jsonParse env

def turnServer : Json :=
  .obj [("urls", .str "turn:turn.cloudflare.com:3478"),
    ("username", .str "user"), ("credential", .str "pass")]

def turnPayload : Json :=
  .obj [("iceServers", .arr [turnServer]), ("ttl", .num 600)]

def turnEnv : VoiceChatEnv :=
  { ICE_SERVERS_JSON := none
    TURN_TOKEN_ID := some "tid"
    TURN_API_TOKEN := some "secret"
    TURN_CACHE_TTL_SECONDS := none }

theorem clampTtl_range (x : Option ℚ) :
    5000 ≤ clampTtl x ∧ clampTtl x ≤ 3600000 := by
  cases x with
  | none =>
      constructor
      · norm_num [clampTtl]
      · norm_num [clampTtl]
  | some q =>
      constructor
      · exact le_min (le_max_right q 5000) (by norm_num)
      · exact min_le_right _ _

theorem cacheMsTail2_range (n : Option ℤ) :
    5000 ≤ cacheMsTail2 n ∧ cacheMsTail2 n ≤ 3600000 := by
  cases n with
  | none =>
      constructor
      · norm_num [cacheMsTail2]
      · norm_num [cacheMsTail2]
  | some k =>
      unfold cacheMsTail2
      dsimp only
      by_cases hk : k ≠ 0 ∧ 0 < k
      · rw [if_pos hk]
        exact clampTtl_range _
      · rw [if_neg hk]
        constructor
        · norm_num
        · norm_num

theorem cacheMsTail1_range (e n : Option ℤ) (now : ℤ) :
    5000 ≤ cacheMsTail1 e n now ∧ cacheMsTail1 e n now ≤ 3600000 := by
  cases e with
  | none => exact cacheMsTail2_range n
  | some ms => exact clampTtl_range _

theorem computeCacheMs_range (ttl : Option ℚ) (e n : Option ℤ)
    (now : ℤ) :
    5000 ≤ computeCacheMs ttl e n now ∧
    computeCacheMs ttl e n now ≤ 3600000 := by
  cases ttl with
  | none => exact cacheMsTail1_range e n now
  | some t =>
      unfold computeCacheMs
      dsimp only
      by_cases ht : t ≠ 0 ∧ 0 < t
      · rw [if_pos ht]
        exact clampTtl_range _
      · rw [if_neg ht]
        exact cacheMsTail1_range e n now

theorem default_servers_valid :
    ∀ s : Json, s ∈ DEFAULT_ICE_SERVERS → isIceServerLike s = true := by
  intro s hs
  have h : s = defaultStunServer := List.mem_singleton.mp hs
  subst h
  rfl

/-- Counterexample to C9 as stated: with a TURN token pair configured and
a TURN credentials fetch that would succeed with one valid relay entry,
the spec's three-stage chain returns that relay entry, but the admission
handler (worker line 271) returns `getIceServers(env)` = the built-in
STUN default — `resolveTurnIceServers` is never called on the admission
path. -/
theorem admission_ignores_turn_counterexample :
    turnConfigured turnEnv = true ∧
    validateTurnPayload turnPayload = some [turnServer] ∧
    specRelayChain (fun _ => none) (some turnPayload) turnEnv =
      [turnServer] ∧
    handleJoinIceServers (fun _ => none) turnEnv =
      DEFAULT_ICE_SERVERS ∧
    [turnServer] ≠ DEFAULT_ICE_SERVERS := by
  refine ⟨rfl, rfl, rfl, rfl, ?_⟩
  intro h
  injection h with h1 _
  injection h1 with hf
  injection hf with hhead _
  injection hhead with _ hv
  exact Json.noConfusion hv

/-- C9 (corrected): the admission handler's `iceServers` field is
`getIceServers(env)` alone — a two-stage chain (validated non-empty
static `ICE_SERVERS_JSON` list, else the built-in STUN default); the
TURN stage of the spec's chain is dead code on the admission path (see
the counterexample). What does hold: every returned entry passes
`isIceServerLike` (so its `urls` is a string or array of strings), and
the TURN cache-TTL arithmetic, wherever it is used, clamps to
[5 s, 1 h]. -/
theorem admission_ice_fallback :
    (∀ (jsonParse : String → Option Json) (env : VoiceChatEnv),
      handleJoinIceServers jsonParse env = getIceServers jsonParse env ∧
      (getIceServers jsonParse env = DEFAULT_ICE_SERVERS ∨
        ∃ raw parsed, env.ICE_SERVERS_JSON = some raw ∧
          (jsTrim raw).length > 0 ∧
          jsonParse raw = some (Json.arr parsed) ∧
          (parsed.filter isIceServerLike).length > 0 ∧
          getIceServers jsonParse env = parsed.filter isIceServerLike)) ∧
    (∀ (jsonParse : String → Option Json) (env : VoiceChatEnv)
      (s : Json),
      s ∈ getIceServers jsonParse env → isIceServerLike s = true) ∧
    (∀ (ttl : Option ℚ) (expiresAtMs envTtlSeconds : Option ℤ)
      (now : ℤ),
      5000 ≤ computeCacheMs ttl expiresAtMs envTtlSeconds now ∧
      computeCacheMs ttl expiresAtMs envTtlSeconds now ≤ 3600000) := by
  refine ⟨?_, ?_, ?_⟩
  · intro jsonParse env
    refine ⟨rfl, ?_⟩
    unfold getIceServers
    split
    · rename_i raw heq
      split
      · rename_i htrim
        split
        · rename_i parsed heqp
          dsimp only
          split
          · rename_i hlen
            exact Or.inr ⟨raw, parsed, heq, htrim, heqp, hlen, rfl⟩
          · exact Or.inl rfl
        · exact Or.inl rfl
      · exact Or.inl rfl
    · exact Or.inl rfl
  · intro jsonParse env s hs
    unfold getIceServers at hs
    split at hs
    · split at hs
      · split at hs
        · dsimp only at hs
          split at hs
          · exact (List.mem_filter.mp hs).2
          · exact default_servers_valid s hs
        · exact default_servers_valid s hs
      · exact default_servers_valid s hs
    · exact default_servers_valid s hs
  · intro ttl e n now
    exact computeCacheMs_range ttl e n now

/-- Witness for `admission_ice_fallback`: the default STUN entry the
admission handler returns for `turnEnv` passes `isIceServerLike`. -/
theorem admission_ice_fallback_witness :
    isIceServerLike defaultStunServer = true :=
  admission_ice_fallback.2.1 (fun _ => none) turnEnv defaultStunServer
    (List.mem_singleton.mpr rfl)

end Flareslop
